import Mathlib

/-!
Verification development for the semantic core of the jinn/chili compiler
front-end: the structural unifier with coercion-aware rules, the module
export/glob-import resolver, the check driver, call arity checking, and the
compile-time interpreter's global-initialization prologue.

Rust sources are embedded shallowly: machine integers become Nat, fallible
or panicking code returns Option/Except, and functions whose Rust
counterparts recurse through the mutable type context carry an explicit
fuel parameter (a result of none means the fuel was exhausted, which the
Rust code would realize as divergence; every theorem below is stated so
that fuel exhaustion never stands in for a result).
-/

/-- Generic option-valued map over a list (models an iterator that stops at
the first failing element, as a Rust loop propagating a failure would). -/
def mapOpt (g : α → Option β) : List α → Option (List β)
  | [] => some []
  | x :: xs =>
    match g x with
    | none => none
    | some y => (mapOpt g xs).map (fun ys => y :: ys)

/-- Generic short-circuiting any over a list of option-valued predicates
(models Rust Iterator::any over a fallible predicate; fuel exhaustion in
the predicate propagates). -/
def anyOpt (g : α → Option Bool) : List α → Option Bool
  | [] => some false
  | x :: xs =>
    match g x with
    | none => none
    | some true => some true
    | some false => anyOpt g xs

/-! ## The type data model

Modelled from the spec: the file chili_ast/src/ty.rs is not under src/, so
the Type union is taken from the data-model section of the spec: leaves
Unit, Bool, Never, Int(width), UInt(width), Float(width), String, the open
numeric nodes AnyInt(var) and AnyFloat(var), and the composites
Pointer(T,mut), MultiPointer(T,mut), Slice(T,mut), Array(T,n), Tuple([T]),
Fn (named params, variadic flag, return type), Struct (nominal binding id,
kind, named fields), Type(T) and Var(tyvar). Widths are abstracted to Nat
(the unifier only compares them for equality); struct field offsets are
omitted as inert. The Int/UInt split follows the match arms of
src/compiler/chili_infer_new/src/unify.rs, which is in src/. -/

/-- A type-variable identifier (struct Ty in the source, a dense index). -/
abbrev Ty := Nat

/-- Modelled from the spec: struct kinds Struct, Union, PackedStruct. -/
inductive StructTyKind where
  | Struct
  | Union
  | PackedStruct
  deriving DecidableEq, Repr

/-- Modelled from the spec: the Type tagged union (see section comment). -/
inductive TyKind where
  | Unit
  | Bool
  | Never
  | Int (w : Nat)
  | UInt (w : Nat)
  | Float (w : Nat)
  | Str
  | AnyInt (var : Ty)
  | AnyFloat (var : Ty)
  | Pointer (inner : TyKind) (is_mutable : Bool)
  | MultiPointer (inner : TyKind) (is_mutable : Bool)
  | Slice (inner : TyKind) (is_mutable : Bool)
  | Array (inner : TyKind) (size : Nat)
  | Tuple (tys : List TyKind)
  | Fn (params : List (String × TyKind)) (variadic : Bool) (ret : TyKind)
  | Struct (binding_info_id : Nat) (kind : StructTyKind)
      (fields : List (String × TyKind))
  | Typ (inner : TyKind)
  | Var (v : Ty)

/-- Modelled from the spec: a TyCtx slot is Unbound or Bound(Type). -/
inductive TyBinding where
  | Bound (kind : TyKind)
  | Unbound

/-- Modelled from the spec: the type context is a dense vector of
TyBinding indexed by tyvar id. -/
abbrev TyCtx := List TyBinding

/-- TyCtx.get_binding: read a slot (out-of-range reads, which would panic
in Rust and never arise for ids allocated by fresh, are mapped to
Unbound). -/
def ctx_get (ctx : TyCtx) (v : Ty) : TyBinding :=
  ctx.getD v TyBinding.Unbound

/-- TyCtx.bind: overwrite slot v with Bound(kind). List.set is a no-op out
of range, matching the fact that the Rust vector write is only reachable
for allocated slots. -/
def ctx_bind (ctx : TyCtx) (v : Ty) (kind : TyKind) : TyCtx :=
  ctx.set v (TyBinding.Bound kind)

/-- TyCtx.fresh: append an Unbound slot, returning the new id. -/
def ctx_fresh (ctx : TyCtx) : TyCtx × Ty :=
  (ctx ++ [TyBinding.Unbound], ctx.length)

/-- Is the slot of v Bound in ctx? -/
def is_bound (ctx : TyCtx) (v : Ty) : Bool :=
  match ctx_get ctx v with
  | TyBinding.Bound _ => true
  | TyBinding.Unbound => false

/-- Modelled from the spec: normalize(T) walks T and replaces every Var(v)
whose slot is Bound(U) with normalize(U), leaving Unbound variables alone
(the file chili_infer_new/src/normalize.rs is not under src/). The fuel
parameter bounds the recursion depth; none means fuel ran out, which only
happens when the chase through Bound slots does not terminate. -/
def normalize_ty : Nat → TyCtx → TyKind → Option TyKind
  | 0, _, _ => none
  | f + 1, ctx, t =>
    match t with
    | TyKind.Var v =>
      match ctx_get ctx v with
      | TyBinding.Bound u => normalize_ty f ctx u
      | TyBinding.Unbound => some (TyKind.Var v)
    | TyKind.Pointer inner m => (normalize_ty f ctx inner).map (fun n => TyKind.Pointer n m)
    | TyKind.MultiPointer inner m => (normalize_ty f ctx inner).map (fun n => TyKind.MultiPointer n m)
    | TyKind.Slice inner m => (normalize_ty f ctx inner).map (fun n => TyKind.Slice n m)
    | TyKind.Array inner s => (normalize_ty f ctx inner).map (fun n => TyKind.Array n s)
    | TyKind.Tuple tys => (mapOpt (fun x => normalize_ty f ctx x) tys).map TyKind.Tuple
    | TyKind.Fn ps variadic ret =>
      match mapOpt (fun p => (normalize_ty f ctx p.2).map (fun n => (p.1, n))) ps with
      | none => none
      | some ps2 => (normalize_ty f ctx ret).map (TyKind.Fn ps2 variadic)
    | TyKind.Struct id k fields =>
      (mapOpt (fun p => (normalize_ty f ctx p.2).map (fun n => (p.1, n))) fields).map
        (TyKind.Struct id k)
    | TyKind.Typ inner => (normalize_ty f ctx inner).map TyKind.Typ
    | other => some other

/-- occurs from src/compiler/chili_infer_new/src/unify.rs: true iff an
unbound Var equal to var is reachable from kind, chasing Bound slots; the
catch-all arm of the source returns false for every other node, so in
particular it does not look inside Type(_) wrappers or AnyInt/AnyFloat. -/
def occurs : Nat → TyCtx → Ty → TyKind → Option Bool
  | 0, _, _, _ => none
  | f + 1, ctx, var, kind =>
    match kind with
    | TyKind.Var other =>
      match ctx_get ctx other with
      | TyBinding.Bound ty => occurs f ctx var ty
      | TyBinding.Unbound => some (var == other)
    | TyKind.Fn ps _ ret =>
      match anyOpt (fun p => occurs f ctx var p.2) ps with
      | none => none
      | some true => some true
      | some false => occurs f ctx var ret
    | TyKind.Pointer ty _ => occurs f ctx var ty
    | TyKind.MultiPointer ty _ => occurs f ctx var ty
    | TyKind.Array ty _ => occurs f ctx var ty
    | TyKind.Slice ty _ => occurs f ctx var ty
    | TyKind.Tuple tys => anyOpt (fun ty => occurs f ctx var ty) tys
    | TyKind.Struct _ _ fields => anyOpt (fun p => occurs f ctx var p.2) fields
    | _ => some false

/-- can_coerce_mut from src/compiler/chili_infer_new/src/unify.rs. -/
def can_coerce_mut (from_m to_m : Bool) : Bool :=
  from_m == to_m || (!from_m && to_m)

/-- The unifier's error type (enum TyUnifyErr in the source). -/
inductive TyUnifyErr where
  | Mismatch
  | Occurs
  deriving DecidableEq, Repr

/-- A unify call's outcome together with the type context it leaves behind
(the Rust function mutates tycx in place and returns Result<(), TyUnifyErr>). -/
abbrev UnifyOut := Except TyUnifyErr Unit × TyCtx

/-- Sequencing of unify steps: models the Rust question-mark operator with
the mutable tycx threaded through (an error keeps the context mutations
performed so far and skips the continuation). -/
def uThen (r : Option UnifyOut) (k : TyCtx → Option UnifyOut) : Option UnifyOut :=
  match r with
  | none => none
  | some (Except.error e, c) => some (Except.error e, c)
  | some (Except.ok _, c) => k c

/-- Element-wise unification of a list of type pairs, threading the
context and stopping at the first error (the for loops of the Fn, Tuple
and Struct arms). -/
def fold_unify (u : TyCtx → TyKind → TyKind → Option UnifyOut) :
    TyCtx → List (TyKind × TyKind) → Option UnifyOut
  | ctx, [] => some (Except.ok (), ctx)
  | ctx, p :: ps => uThen (u ctx p.1 p.2) (fun c => fold_unify u c ps)

/-- The comparison TyKind::Var(var) != other_norm of unify_var_ty,
specialized to its call site where the left side is a Var node. -/
def is_var_eq (v : Ty) : TyKind → Bool
  | TyKind.Var w => v == w
  | _ => false

/-- unify for TyKind from src/compiler/chili_infer_new/src/unify.rs, with
unify_var_ty inlined at its two call sites (see unify_var_ty below for the
standalone form). Match arms appear in source order; the guarded primitive
arms fall through to the final Mismatch arm exactly as in the source. Fuel
decreases on every recursive call. -/
def unify : Nat → TyCtx → TyKind → TyKind → Option UnifyOut
  | 0, _, _, _ => none
  | f + 1, ctx, t1, t2 =>
    match t1, t2 with
    | TyKind.Unit, TyKind.Unit => some (Except.ok (), ctx)
    | TyKind.Bool, TyKind.Bool => some (Except.ok (), ctx)
    | TyKind.Int w1, TyKind.Int w2 =>
      if w1 = w2 then some (Except.ok (), ctx) else some (Except.error TyUnifyErr.Mismatch, ctx)
    | TyKind.UInt w1, TyKind.UInt w2 =>
      if w1 = w2 then some (Except.ok (), ctx) else some (Except.error TyUnifyErr.Mismatch, ctx)
    | TyKind.Float w1, TyKind.Float w2 =>
      if w1 = w2 then some (Except.ok (), ctx) else some (Except.error TyUnifyErr.Mismatch, ctx)
    | TyKind.AnyInt var, TyKind.AnyInt w => some (Except.ok (), ctx_bind ctx var (TyKind.AnyInt w))
    | TyKind.AnyInt var, TyKind.Int w => some (Except.ok (), ctx_bind ctx var (TyKind.Int w))
    | TyKind.Int w, TyKind.AnyInt var => some (Except.ok (), ctx_bind ctx var (TyKind.Int w))
    | TyKind.AnyInt var, TyKind.UInt w => some (Except.ok (), ctx_bind ctx var (TyKind.UInt w))
    | TyKind.UInt w, TyKind.AnyInt var => some (Except.ok (), ctx_bind ctx var (TyKind.UInt w))
    | TyKind.AnyInt var, TyKind.AnyFloat w => some (Except.ok (), ctx_bind ctx var (TyKind.AnyFloat w))
    | TyKind.AnyFloat w, TyKind.AnyInt var => some (Except.ok (), ctx_bind ctx var (TyKind.AnyFloat w))
    | TyKind.AnyInt var, TyKind.Float w => some (Except.ok (), ctx_bind ctx var (TyKind.Float w))
    | TyKind.Float w, TyKind.AnyInt var => some (Except.ok (), ctx_bind ctx var (TyKind.Float w))
    | TyKind.AnyFloat var, TyKind.AnyFloat w => some (Except.ok (), ctx_bind ctx var (TyKind.AnyFloat w))
    | TyKind.AnyFloat var, TyKind.Float w => some (Except.ok (), ctx_bind ctx var (TyKind.Float w))
    | TyKind.Float w, TyKind.AnyFloat var => some (Except.ok (), ctx_bind ctx var (TyKind.Float w))
    | TyKind.Pointer i1 a1, TyKind.Pointer i2 a2 =>
      if !(can_coerce_mut a1 a2) then some (Except.error TyUnifyErr.Mismatch, ctx)
      else unify f ctx i1 i2
    | TyKind.MultiPointer i1 a1, TyKind.MultiPointer i2 a2 =>
      if !(can_coerce_mut a1 a2) then some (Except.error TyUnifyErr.Mismatch, ctx)
      else unify f ctx i1 i2
    | TyKind.Slice i1 a1, TyKind.Slice i2 a2 =>
      if !(can_coerce_mut a1 a2) then some (Except.error TyUnifyErr.Mismatch, ctx)
      else unify f ctx i1 i2
    | TyKind.Fn ps1 v1 r1, TyKind.Fn ps2 v2 r2 =>
      if ps1.length ≠ ps2.length ∨ v1 ≠ v2 then some (Except.error TyUnifyErr.Mismatch, ctx)
      else
        uThen (fold_unify (fun c a b => unify f c a b) ctx
            ((ps1.map Prod.snd).zip (ps2.map Prod.snd)))
          (fun c => unify f c r1 r2)
    | TyKind.Array i1 s1, TyKind.Array i2 s2 =>
      if s1 ≠ s2 then some (Except.error TyUnifyErr.Mismatch, ctx)
      else unify f ctx i1 i2
    | TyKind.Tuple ts1, TyKind.Tuple ts2 =>
      if ts1.length ≠ ts2.length then some (Except.error TyUnifyErr.Mismatch, ctx)
      else fold_unify (fun c a b => unify f c a b) ctx (ts1.zip ts2)
    | TyKind.Struct id1 k1 fs1, TyKind.Struct id2 k2 fs2 =>
      if id1 = id2 then some (Except.ok (), ctx)
      else if fs1.length ≠ fs2.length ∨ k1 ≠ k2 then some (Except.error TyUnifyErr.Mismatch, ctx)
      else fold_unify (fun c a b => unify f c a b) ctx
        ((fs1.map Prod.snd).zip (fs2.map Prod.snd))
    | TyKind.Typ i1, TyKind.Typ i2 => unify f ctx i1 i2
    | TyKind.Typ i1, u2 => unify f ctx i1 u2
    | u1, TyKind.Typ i2 => unify f ctx u1 i2
    | TyKind.Var v, u2 =>
      match ctx_get ctx v with
      | TyBinding.Bound kind => unify f ctx kind u2
      | TyBinding.Unbound =>
        match normalize_ty f ctx u2 with
        | none => none
        | some n =>
          if is_var_eq v n then some (Except.ok (), ctx)
          else
            match occurs f ctx v n with
            | none => none
            | some true => some (Except.error TyUnifyErr.Occurs, ctx)
            | some false => some (Except.ok (), ctx_bind ctx v n)
    | u1, TyKind.Var v =>
      match ctx_get ctx v with
      | TyBinding.Bound kind => unify f ctx kind u1
      | TyBinding.Unbound =>
        match normalize_ty f ctx u1 with
        | none => none
        | some n =>
          if is_var_eq v n then some (Except.ok (), ctx)
          else
            match occurs f ctx v n with
            | none => none
            | some true => some (Except.error TyUnifyErr.Occurs, ctx)
            | some false => some (Except.ok (), ctx_bind ctx v n)
    | TyKind.Never, _ => some (Except.ok (), ctx)
    | _, TyKind.Never => some (Except.ok (), ctx)
    | _, _ => some (Except.error TyUnifyErr.Mismatch, ctx)

/-- unify_var_ty from the source, as a standalone function (its body is
inlined verbatim at the two Var arms of unify above). -/
def unify_var_ty (f : Nat) (ctx : TyCtx) (v : Ty) (other : TyKind) : Option UnifyOut :=
  match ctx_get ctx v with
  | TyBinding.Bound kind => unify f ctx kind other
  | TyBinding.Unbound =>
    match normalize_ty f ctx other with
    | none => none
    | some n =>
      if is_var_eq v n then some (Except.ok (), ctx)
      else
        match occurs f ctx v n with
        | none => none
        | some true => some (Except.error TyUnifyErr.Occurs, ctx)
        | some false => some (Except.ok (), ctx_bind ctx v n)

example : unify 3 [] TyKind.Unit TyKind.Unit = some (Except.ok (), []) := rfl

example : unify 3 [] TyKind.Unit TyKind.Bool = some (Except.error TyUnifyErr.Mismatch, []) := rfl

example :
    unify 5 [TyBinding.Unbound] (TyKind.Var 0) (TyKind.Int 32) =
      some (Except.ok (), [TyBinding.Bound (TyKind.Int 32)]) := rfl

example :
    unify 5 [TyBinding.Unbound] (TyKind.Var 0) (TyKind.Var 0) =
      some (Except.ok (), [TyBinding.Unbound]) := rfl

example :
    unify 9 [TyBinding.Unbound] (TyKind.Var 0)
        (TyKind.Pointer (TyKind.Typ (TyKind.Var 0)) false) =
      some (Except.ok (),
        [TyBinding.Bound (TyKind.Pointer (TyKind.Typ (TyKind.Var 0)) false)]) := rfl

/-! ## Verification-side predicates on types -/

mutual

/-- Does the node Var(v) appear syntactically anywhere inside t (including
under Type(_) wrappers)? This is plain containment, with no context. -/
def contains_var (v : Ty) : TyKind → Bool
  | TyKind.Var w => v == w
  | TyKind.Pointer inner _ => contains_var v inner
  | TyKind.MultiPointer inner _ => contains_var v inner
  | TyKind.Slice inner _ => contains_var v inner
  | TyKind.Array inner _ => contains_var v inner
  | TyKind.Tuple tys => contains_var_list v tys
  | TyKind.Fn ps _ ret => contains_var_pairs v ps || contains_var v ret
  | TyKind.Struct _ _ fields => contains_var_pairs v fields
  | TyKind.Typ inner => contains_var v inner
  | _ => false
termination_by t => sizeOf t
decreasing_by all_goals (simp; try omega)

/-- contains_var over a list of types. -/
def contains_var_list (v : Ty) : List TyKind → Bool
  | [] => false
  | t :: ts => contains_var v t || contains_var_list v ts
termination_by ts => sizeOf ts
decreasing_by all_goals (simp; try omega)

/-- contains_var over named params/fields. -/
def contains_var_pairs (v : Ty) : List (String × TyKind) → Bool
  | [] => false
  | (_, t) :: ps => contains_var v t || contains_var_pairs v ps
termination_by ps => sizeOf ps
decreasing_by all_goals (simp; try omega)

end

/-- Is t the node Var(v), possibly under Type(_) wrappers? -/
def is_type_wrapped_var (v : Ty) : TyKind → Bool
  | TyKind.Var w => v == w
  | TyKind.Typ inner => is_type_wrapped_var v inner
  | _ => false

mutual

/-- A closed type in the sense of the reflexivity claim: no Var, AnyInt or
AnyFloat nodes anywhere. -/
def is_closed : TyKind → Bool
  | TyKind.Var _ => false
  | TyKind.AnyInt _ => false
  | TyKind.AnyFloat _ => false
  | TyKind.Pointer inner _ => is_closed inner
  | TyKind.MultiPointer inner _ => is_closed inner
  | TyKind.Slice inner _ => is_closed inner
  | TyKind.Array inner _ => is_closed inner
  | TyKind.Tuple tys => is_closed_list tys
  | TyKind.Fn ps _ ret => is_closed_pairs ps && is_closed ret
  | TyKind.Struct _ _ fields => is_closed_pairs fields
  | TyKind.Typ inner => is_closed inner
  | _ => true
termination_by t => sizeOf t
decreasing_by all_goals (simp; try omega)

/-- is_closed over a list of types. -/
def is_closed_list : List TyKind → Bool
  | [] => true
  | t :: ts => is_closed t && is_closed_list ts
termination_by ts => sizeOf ts
decreasing_by all_goals (simp; try omega)

/-- is_closed over named params/fields. -/
def is_closed_pairs : List (String × TyKind) → Bool
  | [] => true
  | (_, t) :: ps => is_closed t && is_closed_pairs ps
termination_by ps => sizeOf ps
decreasing_by all_goals (simp; try omega)

end

mutual

/-- No String leaf anywhere in the type. -/
def str_free : TyKind → Bool
  | TyKind.Str => false
  | TyKind.Pointer inner _ => str_free inner
  | TyKind.MultiPointer inner _ => str_free inner
  | TyKind.Slice inner _ => str_free inner
  | TyKind.Array inner _ => str_free inner
  | TyKind.Tuple tys => str_free_list tys
  | TyKind.Fn ps _ ret => str_free_pairs ps && str_free ret
  | TyKind.Struct _ _ fields => str_free_pairs fields
  | TyKind.Typ inner => str_free inner
  | _ => true
termination_by t => sizeOf t
decreasing_by all_goals (simp; try omega)

/-- str_free over a list of types. -/
def str_free_list : List TyKind → Bool
  | [] => true
  | t :: ts => str_free t && str_free_list ts
termination_by ts => sizeOf ts
decreasing_by all_goals (simp; try omega)

/-- str_free over named params/fields. -/
def str_free_pairs : List (String × TyKind) → Bool
  | [] => true
  | (_, t) :: ps => str_free t && str_free_pairs ps
termination_by ps => sizeOf ps
decreasing_by all_goals (simp; try omega)

end

mutual

/-- A structural size measure used as a fuel bound for the unifier. -/
def ty_size : TyKind → Nat
  | TyKind.Pointer inner _ => 1 + ty_size inner
  | TyKind.MultiPointer inner _ => 1 + ty_size inner
  | TyKind.Slice inner _ => 1 + ty_size inner
  | TyKind.Array inner _ => 1 + ty_size inner
  | TyKind.Tuple tys => 1 + ty_size_list tys
  | TyKind.Fn ps _ ret => 1 + ty_size_pairs ps + ty_size ret
  | TyKind.Struct _ _ fields => 1 + ty_size_pairs fields
  | TyKind.Typ inner => 1 + ty_size inner
  | _ => 1
termination_by t => sizeOf t
decreasing_by all_goals (simp; try omega)

/-- ty_size over a list of types. -/
def ty_size_list : List TyKind → Nat
  | [] => 0
  | t :: ts => ty_size t + ty_size_list ts
termination_by ts => sizeOf ts
decreasing_by all_goals (simp; try omega)

/-- ty_size over named params/fields. -/
def ty_size_pairs : List (String × TyKind) → Nat
  | [] => 0
  | (_, t) :: ps => ty_size t + ty_size_pairs ps
termination_by ps => sizeOf ps
decreasing_by all_goals (simp; try omega)

end

/-! ## Basic lemmas about the type predicates and unify plumbing -/

theorem ty_size_pos (t : TyKind) : 0 < ty_size t := by
  cases t <;> simp [ty_size]

theorem ty_size_list_mem (t : TyKind) (ts : List TyKind) (h : t ∈ ts) :
    ty_size t ≤ ty_size_list ts := by
  induction ts with
  | nil => cases h
  | cons x xs ih =>
    rcases List.mem_cons.mp h with h1 | h2
    · subst h1; simp [ty_size_list]
    · have := ih h2
      simp [ty_size_list]
      omega

theorem ty_size_pairs_mem (t : TyKind) (ps : List (String × TyKind))
    (h : t ∈ ps.map Prod.snd) : ty_size t ≤ ty_size_pairs ps := by
  induction ps with
  | nil => cases h
  | cons x xs ih =>
    rcases List.mem_cons.mp h with h1 | h2
    · subst h1
      cases x
      simp [ty_size_pairs]
    · have := ih h2
      cases x
      simp [ty_size_pairs]
      omega

theorem is_closed_list_mem (t : TyKind) (ts : List TyKind) (hm : t ∈ ts)
    (h : is_closed_list ts = true) : is_closed t = true := by
  induction ts with
  | nil => cases hm
  | cons x xs ih =>
    simp [is_closed_list] at h
    rcases List.mem_cons.mp hm with h1 | h2
    · subst h1; exact h.1
    · exact ih h2 h.2

theorem is_closed_pairs_mem (t : TyKind) (ps : List (String × TyKind))
    (hm : t ∈ ps.map Prod.snd) (h : is_closed_pairs ps = true) : is_closed t = true := by
  induction ps with
  | nil => cases hm
  | cons x xs ih =>
    cases x
    simp [is_closed_pairs] at h
    rcases List.mem_cons.mp hm with h1 | h2
    · subst h1; exact h.1
    · exact ih h2 h.2

theorem str_free_list_mem (t : TyKind) (ts : List TyKind) (hm : t ∈ ts)
    (h : str_free_list ts = true) : str_free t = true := by
  induction ts with
  | nil => cases hm
  | cons x xs ih =>
    simp [str_free_list] at h
    rcases List.mem_cons.mp hm with h1 | h2
    · subst h1; exact h.1
    · exact ih h2 h.2

theorem str_free_pairs_mem (t : TyKind) (ps : List (String × TyKind))
    (hm : t ∈ ps.map Prod.snd) (h : str_free_pairs ps = true) : str_free t = true := by
  induction ps with
  | nil => cases hm
  | cons x xs ih =>
    cases x
    simp [str_free_pairs] at h
    rcases List.mem_cons.mp hm with h1 | h2
    · subst h1; exact h.1
    · exact ih h2 h.2

theorem fold_unify_refl (u : TyCtx → TyKind → TyKind → Option UnifyOut) :
    ∀ l : List TyKind, (∀ x ∈ l, ∀ c, u c x x = some (Except.ok (), c)) →
      ∀ ctx : TyCtx, fold_unify u ctx (l.zip l) = some (Except.ok (), ctx) := by
  intro l
  induction l with
  | nil => intro _ ctx; simp [fold_unify]
  | cons x xs ih =>
    intro h ctx
    simp only [List.zip_cons_cons, fold_unify, h x (List.mem_cons_self x xs) ctx, uThen]
    exact ih (fun y hy c => h y (List.mem_cons_of_mem x hy) c) ctx

/-- Reflexivity of the unifier on closed, String-free types: such a unify
call succeeds and leaves the context untouched. -/
theorem unify_refl_of_closed (f : Nat) (T : TyKind) (ctx : TyCtx)
    (hc : is_closed T = true) (hs : str_free T = true) (hf : ty_size T ≤ f) :
    unify f ctx T T = some (Except.ok (), ctx) := by
  induction f generalizing T ctx with
  | zero => have := ty_size_pos T; omega
  | succ f ih =>
    cases T with
    | Unit => rfl
    | Bool => rfl
    | Never => rfl
    | Int w =>
      rw [show unify (f+1) ctx (TyKind.Int w) (TyKind.Int w) =
        (if w = w then some (Except.ok (), ctx)
         else some (Except.error TyUnifyErr.Mismatch, ctx)) from rfl]
      simp
    | UInt w =>
      rw [show unify (f+1) ctx (TyKind.UInt w) (TyKind.UInt w) =
        (if w = w then some (Except.ok (), ctx)
         else some (Except.error TyUnifyErr.Mismatch, ctx)) from rfl]
      simp
    | Float w =>
      rw [show unify (f+1) ctx (TyKind.Float w) (TyKind.Float w) =
        (if w = w then some (Except.ok (), ctx)
         else some (Except.error TyUnifyErr.Mismatch, ctx)) from rfl]
      simp
    | Str => simp [str_free] at hs
    | AnyInt v => simp [is_closed] at hc
    | AnyFloat v => simp [is_closed] at hc
    | Var v => simp [is_closed] at hc
    | Pointer inner m =>
      have hm : can_coerce_mut m m = true := by cases m <;> rfl
      rw [show unify (f+1) ctx (TyKind.Pointer inner m) (TyKind.Pointer inner m) =
        (if !(can_coerce_mut m m) then some (Except.error TyUnifyErr.Mismatch, ctx)
         else unify f ctx inner inner) from rfl, hm]
      simp only [Bool.not_true, Bool.false_eq_true, if_false]
      exact ih inner ctx (by simpa [is_closed] using hc) (by simpa [str_free] using hs)
        (by simp [ty_size] at hf; omega)
    | MultiPointer inner m =>
      have hm : can_coerce_mut m m = true := by cases m <;> rfl
      rw [show unify (f+1) ctx (TyKind.MultiPointer inner m) (TyKind.MultiPointer inner m) =
        (if !(can_coerce_mut m m) then some (Except.error TyUnifyErr.Mismatch, ctx)
         else unify f ctx inner inner) from rfl, hm]
      simp only [Bool.not_true, Bool.false_eq_true, if_false]
      exact ih inner ctx (by simpa [is_closed] using hc) (by simpa [str_free] using hs)
        (by simp [ty_size] at hf; omega)
    | Slice inner m =>
      have hm : can_coerce_mut m m = true := by cases m <;> rfl
      rw [show unify (f+1) ctx (TyKind.Slice inner m) (TyKind.Slice inner m) =
        (if !(can_coerce_mut m m) then some (Except.error TyUnifyErr.Mismatch, ctx)
         else unify f ctx inner inner) from rfl, hm]
      simp only [Bool.not_true, Bool.false_eq_true, if_false]
      exact ih inner ctx (by simpa [is_closed] using hc) (by simpa [str_free] using hs)
        (by simp [ty_size] at hf; omega)
    | Array inner s =>
      rw [show unify (f+1) ctx (TyKind.Array inner s) (TyKind.Array inner s) =
        (if s ≠ s then some (Except.error TyUnifyErr.Mismatch, ctx)
         else unify f ctx inner inner) from rfl]
      simp only [ne_eq, not_true_eq_false, if_false]
      exact ih inner ctx (by simpa [is_closed] using hc) (by simpa [str_free] using hs)
        (by simp [ty_size] at hf; omega)
    | Tuple ts =>
      rw [show unify (f+1) ctx (TyKind.Tuple ts) (TyKind.Tuple ts) =
        (if ts.length ≠ ts.length then some (Except.error TyUnifyErr.Mismatch, ctx)
         else fold_unify (fun c a b => unify f c a b) ctx (ts.zip ts)) from rfl]
      simp only [ne_eq, not_true_eq_false, if_false]
      have helems : ∀ x ∈ ts, ∀ c, unify f c x x = some (Except.ok (), c) := by
        intro x hx c
        have hsz := ty_size_list_mem x ts hx
        refine ih x c (is_closed_list_mem x ts hx (by simpa [is_closed] using hc))
          (str_free_list_mem x ts hx (by simpa [str_free] using hs)) (by simp [ty_size] at hf; omega)
      exact fold_unify_refl _ ts helems ctx
    | Fn ps variadic ret =>
      rw [show unify (f+1) ctx (TyKind.Fn ps variadic ret) (TyKind.Fn ps variadic ret) =
        (if ps.length ≠ ps.length ∨ variadic ≠ variadic
         then some (Except.error TyUnifyErr.Mismatch, ctx)
         else
          uThen (fold_unify (fun c a b => unify f c a b) ctx
              ((ps.map Prod.snd).zip (ps.map Prod.snd)))
            (fun c => unify f c ret ret)) from rfl]
      simp only [ne_eq, not_true_eq_false, or_self, if_false]
      have hfold : ∀ x ∈ ps.map Prod.snd, ∀ c, unify f c x x = some (Except.ok (), c) := by
        intro x hx c
        have hsz := ty_size_pairs_mem x ps hx
        refine ih x c (is_closed_pairs_mem x ps hx (by simp [is_closed] at hc; exact hc.1))
          (str_free_pairs_mem x ps hx (by simp [str_free] at hs; exact hs.1))
          (by simp [ty_size] at hf; omega)
      rw [fold_unify_refl _ (ps.map Prod.snd) hfold ctx]
      simp only [uThen]
      exact ih ret ctx (by simp [is_closed] at hc; exact hc.2)
        (by simp [str_free] at hs; exact hs.2) (by simp [ty_size] at hf; omega)
    | Struct id k fields =>
      rw [show unify (f+1) ctx (TyKind.Struct id k fields) (TyKind.Struct id k fields) =
        (if id = id then some (Except.ok (), ctx)
         else if fields.length ≠ fields.length ∨ k ≠ k
         then some (Except.error TyUnifyErr.Mismatch, ctx)
         else fold_unify (fun c a b => unify f c a b) ctx
           ((fields.map Prod.snd).zip (fields.map Prod.snd))) from rfl]
      simp
    | Typ inner =>
      rw [show unify (f+1) ctx (TyKind.Typ inner) (TyKind.Typ inner) =
        unify f ctx inner inner from rfl]
      exact ih inner ctx (by simpa [is_closed] using hc) (by simpa [str_free] using hs)
        (by simp [ty_size] at hf; omega)

/-! ## Claim C4: unifier reflexivity -/

/-- C4 (counterexample): the claim as stated is false. String is a leaf of
the Type union and contains no Var, AnyInt or AnyFloat node, so it is a
closed type, yet the unifier of the source has no match arm for a pair of
String leaves: unify(String, String) falls into the catch-all arm and
fails with Mismatch instead of succeeding. -/
theorem unify_str_str_mismatch :
    is_closed TyKind.Str = true ∧
      unify 1 [] TyKind.Str TyKind.Str = some (Except.error TyUnifyErr.Mismatch, []) :=
  ⟨by simp [is_closed], rfl⟩

/-- C4 (amended): for every closed type T (no Var, AnyInt or AnyFloat
nodes) that moreover contains no String leaf, unify(T, T) succeeds — for
every other leaf kind (Unit, Bool, Never, Int, UInt, Float) and every
composite kind (Pointer, MultiPointer, Slice, Array, Tuple, Fn, Struct,
Type) — and leaves the type context untouched. -/
theorem unifier_reflexivity (T : TyKind) (ctx : TyCtx) (f : Nat)
    (hc : is_closed T = true) (hs : str_free T = true) (hf : ty_size T ≤ f) :
    unify f ctx T T = some (Except.ok (), ctx) :=
  unify_refl_of_closed f T ctx hc hs hf

/-- C4 (witness): reflexivity evaluated on a concrete closed type
exercising every leaf but String and every composite kind. -/
theorem unifier_reflexivity_witness :
    is_closed (TyKind.Tuple [TyKind.Int 8, TyKind.UInt 16, TyKind.Float 32, TyKind.Bool,
        TyKind.Unit, TyKind.Never, TyKind.Pointer (TyKind.Int 8) true,
        TyKind.MultiPointer TyKind.Unit false, TyKind.Slice TyKind.Bool false,
        TyKind.Array TyKind.Unit 2, TyKind.Fn [("a", TyKind.Int 8)] false TyKind.Unit,
        TyKind.Struct 7 StructTyKind.Union [("f", TyKind.Bool)],
        TyKind.Typ (TyKind.Int 8)]) = true ∧
    unify 30 [] (TyKind.Tuple [TyKind.Int 8, TyKind.UInt 16, TyKind.Float 32, TyKind.Bool,
        TyKind.Unit, TyKind.Never, TyKind.Pointer (TyKind.Int 8) true,
        TyKind.MultiPointer TyKind.Unit false, TyKind.Slice TyKind.Bool false,
        TyKind.Array TyKind.Unit 2, TyKind.Fn [("a", TyKind.Int 8)] false TyKind.Unit,
        TyKind.Struct 7 StructTyKind.Union [("f", TyKind.Bool)],
        TyKind.Typ (TyKind.Int 8)])
      (TyKind.Tuple [TyKind.Int 8, TyKind.UInt 16, TyKind.Float 32, TyKind.Bool,
        TyKind.Unit, TyKind.Never, TyKind.Pointer (TyKind.Int 8) true,
        TyKind.MultiPointer TyKind.Unit false, TyKind.Slice TyKind.Bool false,
        TyKind.Array TyKind.Unit 2, TyKind.Fn [("a", TyKind.Int 8)] false TyKind.Unit,
        TyKind.Struct 7 StructTyKind.Union [("f", TyKind.Bool)],
        TyKind.Typ (TyKind.Int 8)]) = some (Except.ok (), []) :=
  ⟨by simp [is_closed, is_closed_list, is_closed_pairs],
   unifier_reflexivity _ [] 30
     (by simp [is_closed, is_closed_list, is_closed_pairs])
     (by simp [str_free, str_free_list, str_free_pairs])
     (by simp [ty_size, ty_size_list, ty_size_pairs])⟩

/-! ## Claim C2: pointer mutability coercion -/

/-- C2: unifying Pointer(t1,m1) with Pointer(t2,m2) — likewise
MultiPointer and Slice — succeeds only when can_coerce_mut(m1,m2) holds;
can_coerce_mut(from,to) is literally from == to || (!from && to); with
equal (closed, String-free) pointee types, unify with the immutable
pointer on the left and the mutable pointer on the right succeeds, and the
reverse orientation fails with Mismatch. -/
theorem pointer_mutability_coercion :
    (∀ f ctx t1 t2 m1 m2 ctx2,
        unify f ctx (TyKind.Pointer t1 m1) (TyKind.Pointer t2 m2) = some (Except.ok (), ctx2) →
        can_coerce_mut m1 m2 = true) ∧
    (∀ f ctx t1 t2 m1 m2 ctx2,
        unify f ctx (TyKind.MultiPointer t1 m1) (TyKind.MultiPointer t2 m2) =
            some (Except.ok (), ctx2) →
        can_coerce_mut m1 m2 = true) ∧
    (∀ f ctx t1 t2 m1 m2 ctx2,
        unify f ctx (TyKind.Slice t1 m1) (TyKind.Slice t2 m2) = some (Except.ok (), ctx2) →
        can_coerce_mut m1 m2 = true) ∧
    (∀ a b, can_coerce_mut a b = (a == b || (!a && b))) ∧
    (∀ f ctx t, is_closed t = true → str_free t = true → ty_size t < f →
        unify f ctx (TyKind.Pointer t false) (TyKind.Pointer t true) = some (Except.ok (), ctx)) ∧
    (∀ f ctx t1 t2,
        unify (f + 1) ctx (TyKind.Pointer t1 true) (TyKind.Pointer t2 false) =
          some (Except.error TyUnifyErr.Mismatch, ctx)) := by
  refine ⟨?p1, ?p2, ?p3, fun a b => rfl, ?p5, fun f ctx t1 t2 => rfl⟩
  · intro f ctx t1 t2 m1 m2 ctx2 h
    cases f with
    | zero =>
      rw [show unify 0 ctx (TyKind.Pointer t1 m1) (TyKind.Pointer t2 m2) = none from rfl] at h
      cases h
    | succ f =>
      rw [show unify (f+1) ctx (TyKind.Pointer t1 m1) (TyKind.Pointer t2 m2) =
        (if !(can_coerce_mut m1 m2) then some (Except.error TyUnifyErr.Mismatch, ctx)
         else unify f ctx t1 t2) from rfl] at h
      cases hcc : can_coerce_mut m1 m2 with
      | false => rw [hcc] at h; simp at h
      | true => rfl
  · intro f ctx t1 t2 m1 m2 ctx2 h
    cases f with
    | zero =>
      rw [show unify 0 ctx (TyKind.MultiPointer t1 m1) (TyKind.MultiPointer t2 m2) = none
        from rfl] at h
      cases h
    | succ f =>
      rw [show unify (f+1) ctx (TyKind.MultiPointer t1 m1) (TyKind.MultiPointer t2 m2) =
        (if !(can_coerce_mut m1 m2) then some (Except.error TyUnifyErr.Mismatch, ctx)
         else unify f ctx t1 t2) from rfl] at h
      cases hcc : can_coerce_mut m1 m2 with
      | false => rw [hcc] at h; simp at h
      | true => rfl
  · intro f ctx t1 t2 m1 m2 ctx2 h
    cases f with
    | zero =>
      rw [show unify 0 ctx (TyKind.Slice t1 m1) (TyKind.Slice t2 m2) = none from rfl] at h
      cases h
    | succ f =>
      rw [show unify (f+1) ctx (TyKind.Slice t1 m1) (TyKind.Slice t2 m2) =
        (if !(can_coerce_mut m1 m2) then some (Except.error TyUnifyErr.Mismatch, ctx)
         else unify f ctx t1 t2) from rfl] at h
      cases hcc : can_coerce_mut m1 m2 with
      | false => rw [hcc] at h; simp at h
      | true => rfl
  · intro f ctx t hc hs hf
    cases f with
    | zero => omega
    | succ f =>
      rw [show unify (f+1) ctx (TyKind.Pointer t false) (TyKind.Pointer t true) =
        (if !(can_coerce_mut false true) then some (Except.error TyUnifyErr.Mismatch, ctx)
         else unify f ctx t t) from rfl]
      simp only [can_coerce_mut, Bool.not_false, Bool.not_true, Bool.false_and, Bool.or_false]
      exact unify_refl_of_closed f t ctx hc hs (by omega)

/-- C2 (witness): the success-implies-coercibility direction evaluated at
an immutable-to-mutable unit-pointer pair, and the coercion direction
evaluated at a concrete closed pointee. -/
theorem pointer_mutability_coercion_witness :
    can_coerce_mut false true = true ∧
      unify 3 [] (TyKind.Pointer TyKind.Unit false) (TyKind.Pointer TyKind.Unit true) =
        some (Except.ok (), []) :=
  ⟨pointer_mutability_coercion.1 2 [] TyKind.Unit TyKind.Unit false true [] rfl,
   pointer_mutability_coercion.2.2.2.2.1 3 [] TyKind.Unit (by simp [is_closed])
     (by simp [str_free]) (by simp [ty_size])⟩

/-! ## The pattern algebra (src/compiler/chili_ast/src/pattern.rs) -/

/-- Modelled from the spec: a source span with a zero-based byte-offset
start position (index, line, column) and an index-only end position
(chili_span is not under src/). -/
structure Span where
  start_index : Nat
  line : Nat
  column : Nat
  end_index : Nat
  deriving DecidableEq, Repr

/-- SymbolPattern from pattern.rs (Ustr symbols become String). -/
structure SymbolPattern where
  binding_info_idx : Nat
  symbol : String
  -- the alias field of the source (alias is reserved in Lean)
  alias_sym : Option String
  span : Span
  is_mutable : Bool
  ignore : Bool
  deriving DecidableEq, Repr

/-- DestructorPattern from pattern.rs. -/
structure DestructorPattern where
  symbols : List SymbolPattern
  exhaustive : Bool
  span : Span
  deriving DecidableEq, Repr

/-- Pattern from pattern.rs. -/
inductive Pattern where
  | Single (p : SymbolPattern)
  | StructDestructor (p : DestructorPattern)
  | TupleDestructor (p : DestructorPattern)
  deriving DecidableEq, Repr

/-- The failure of projecting a destructor pattern to the single form: in
the source into_single panics with the message expected a name; the spec
names this failure ExpectedSingle. -/
inductive PatternError where
  | ExpectedSingle
  deriving DecidableEq, Repr

/-- Pattern::is_single from pattern.rs. -/
def Pattern.is_single : Pattern → Bool
  | Pattern.Single _ => true
  | _ => false

/-- Pattern::into_single from pattern.rs: returns the contained symbol
pattern of a Single variant and fails (the source panics) on the
destructor variants. -/
def Pattern.into_single : Pattern → Except PatternError SymbolPattern
  | Pattern.Single ps => Except.ok ps
  | _ => Except.error PatternError.ExpectedSingle

/-- Pattern::span from pattern.rs. -/
def Pattern.span : Pattern → Span
  | Pattern.Single p => p.span
  | Pattern.StructDestructor p => p.span
  | Pattern.TupleDestructor p => p.span

/-- Pattern::symbols from pattern.rs (immutable traversal, textual order
for destructors, singleton for Single). -/
def Pattern.symbols : Pattern → List SymbolPattern
  | Pattern.Single p => [p]
  | Pattern.StructDestructor p => p.symbols
  | Pattern.TupleDestructor p => p.symbols

/-! ## Resolve: module exports and glob imports
(src/compiler/chili_resolve/src/import.rs) -/

/-- Modelled from the spec: item visibility; only Public items are
exported (the ast module of chili_ast is not under src/). -/
inductive Visibility where
  | Public
  | Private
  deriving DecidableEq, Repr

/-- Visibility::is_public. -/
def Visibility.is_public : Visibility → Bool
  | Visibility.Public => true
  | Visibility.Private => false

/-- Modelled from the spec: module metadata, immutable once inserted; only
its identity matters here. -/
structure ModuleInfo where
  name : String
  deriving DecidableEq, Repr

/-- Modelled from the spec: one node of an import path; a Glob node is the
star of a glob import. -/
inductive ImportPathNode where
  | Symbol (s : String)
  | Glob
  deriving DecidableEq, Repr

/-- A spanned import-path node (Spanned of chili_span). -/
structure SpannedPathNode where
  value : ImportPathNode
  span : Span
  deriving DecidableEq, Repr

/-- Modelled from the spec and the field uses in import.rs: an Import
record of an Ast. -/
structure Import where
  module_id : Nat
  module_info : ModuleInfo
  -- the alias field of the source (alias is reserved in Lean)
  alias_sym : String
  target_binding_info : Option Nat
  import_path : List SpannedPathNode
  visibility : Visibility
  span : Span
  binding_info_id : Nat
  deriving DecidableEq, Repr

/-- Import::is_glob, modelled from the spec: an import whose final path
node is Glob. -/
def Import.is_glob (i : Import) : Bool :=
  match i.import_path.getLast? with
  | some n =>
    match n.value with
    | ImportPathNode.Glob => true
    | _ => false
  | none => false

/-- Modelled from the spec: a Binding record of an Ast, reduced to the
fields the resolve and check drivers consult. -/
structure Binding where
  pattern : Pattern
  visibility : Visibility
  deriving DecidableEq, Repr

/-- Modelled from the spec: one Ast per source file, reduced to the fields
the resolve and check drivers consult. -/
structure Ast where
  module_id : Nat
  imports : List Import
  bindings : List Binding
  deriving DecidableEq, Repr

/-- One module's export table: symbol to binding-info id, with the
insert-replaces-existing-key semantics of a hash map, iterated in a
deterministic (insertion) order. -/
abbrev ExportEntry := List (String × Nat)

/-- The ModuleExports mapping: module id to export table. -/
abbrev ModuleExports := List (Nat × ExportEntry)

/-- HashMap::insert on an export table: replace the value of an existing
key, otherwise append. -/
def insert_symbol : ExportEntry → String → Nat → ExportEntry
  | [], k, v => [(k, v)]
  | (k0, v0) :: rest, k, v =>
    if k0 = k then (k, v) :: rest else (k0, v0) :: insert_symbol rest k v

/-- HashMap::get on the ModuleExports mapping. -/
def exports_get : ModuleExports → Nat → Option ExportEntry
  | [], _ => none
  | (m0, e0) :: rest, m => if m0 = m then some e0 else exports_get rest m

/-- Store a module's (possibly new) export table back into the mapping:
replace the entry of an existing module id, otherwise append. -/
def exports_put : ModuleExports → Nat → ExportEntry → ModuleExports
  | [], m, e => [(m, e)]
  | (m0, e0) :: rest, m, e =>
    if m0 = m then (m, e) :: rest else (m0, e0) :: exports_put rest m e

/-- The public-import pass of collect_module_exports over one Ast. -/
def collect_import_exports (entry : ExportEntry) (imports : List Import) : ExportEntry :=
  imports.foldl
    (fun e imp =>
      if imp.visibility.is_public then insert_symbol e imp.alias_sym imp.binding_info_id else e)
    entry

/-- The public-binding pass of collect_module_exports over one Ast: every
public binding is projected through Pattern::into_single, whose failure
(a panic in the source) aborts the whole collection. -/
def collect_binding_exports : ExportEntry → List Binding → Option ExportEntry
  | e, [] => some e
  | e, b :: bs =>
    if b.visibility.is_public then
      match b.pattern.into_single with
      | Except.error _ => none
      | Except.ok pat => collect_binding_exports (insert_symbol e pat.symbol pat.binding_info_idx) bs
    else collect_binding_exports e bs

/-- collect_module_exports from import.rs: for each Ast, fetch (or create)
the module's export table, insert every public import and every public
binding; a none result models the panic of into_single on a public
destructor binding. -/
def collect_module_exports : List Ast → ModuleExports → Option ModuleExports
  | [], ex => some ex
  | ast :: asts, ex =>
    let entry := (exports_get ex ast.module_id).getD []
    match collect_binding_exports (collect_import_exports entry ast.imports) ast.bindings with
    | none => none
    | some e2 => collect_module_exports asts (exports_put ex ast.module_id e2)

/-- The import built by expand_glob_import for one exported symbol: every
field of the original glob import is kept except the alias (the exported
symbol) and the import path, whose final Glob node is popped and replaced
by a Symbol node carrying the import's span. -/
def expand_entry (imp : Import) (p : String × Nat) : Import :=
  { module_id := imp.module_id
    module_info := imp.module_info
    alias_sym := p.1
    target_binding_info := imp.target_binding_info
    import_path := imp.import_path.dropLast ++ [⟨ImportPathNode.Symbol p.1, imp.span⟩]
    visibility := imp.visibility
    span := imp.span
    binding_info_id := imp.binding_info_id }

/-- expand_glob_import from import.rs: one import per symbol exported by
the glob's target module; none models the panic of the unwrap when the
target module has no exports entry. -/
def expand_glob_import (imp : Import) (ex : ModuleExports) : Option (List Import) :=
  match exports_get ex imp.module_id with
  | none => none
  | some entry => some (entry.map (fun p => expand_entry imp p))

/-- The first loop of expand_and_replace_glob_imports: walk the imports
with their indices, recording each glob import's index in to_remove and
its expansion in to_add. -/
def collect_glob_expansions : List (Nat × Import) → ModuleExports → Option (List Nat × List Import)
  | [], _ => some ([], [])
  | (i, imp) :: rest, ex =>
    if imp.is_glob then
      match expand_glob_import imp ex with
      | none => none
      | some expanded =>
        match collect_glob_expansions rest ex with
        | none => none
        | some (rem, add) => some (i :: rem, expanded ++ add)
    else collect_glob_expansions rest ex

/-- The second loop of expand_and_replace_glob_imports: remove the
recorded indices in order, offsetting each by the number already
removed (Vec::remove becomes List.eraseIdx). -/
def remove_indices_loop : List Import → List Nat → Nat → List Import
  | imports, [], _ => imports
  | imports, i :: rest, removed => remove_indices_loop (imports.eraseIdx (i - removed)) rest (removed + 1)

/-- expand_and_replace_glob_imports from import.rs. -/
def expand_and_replace_glob_imports (imports : List Import) (ex : ModuleExports) :
    Option (List Import) :=
  match collect_glob_expansions imports.enum ex with
  | none => none
  | some (to_remove, to_add) => some (remove_indices_loop imports to_remove 0 ++ to_add)

/-! ## The check driver (src/compiler/chili_check/src/lib.rs) -/

/-- Modelled from the spec: one label of a diagnostic record. -/
structure DiagLabel where
  is_primary : Bool
  span : Span
  message : String
  deriving DecidableEq, Repr

/-- Modelled from the spec: the diagnostic record the check stage emits
(the kind is always Error). -/
structure Diagnostic where
  message : String
  labels : List DiagLabel
  notes : List String
  deriving DecidableEq, Repr

/-- The inner loops of the check function: check items one by one,
threading the session state; the Rust question-mark operator propagates
the first error and abandons the rest of the list. The per-item checkers
(check_import, check_top_level_binding) live in source files that are not
under src/, so the driver is parametric in them. -/
def check_list (f : σ → α → Except Diagnostic σ) : σ → List α → Except Diagnostic σ
  | s, [] => Except.ok s
  | s, x :: xs =>
    match f s x with
    | Except.error e => Except.error e
    | Except.ok s2 => check_list f s2 xs

/-- The per-Ast body of the check loop: every import, then every
top-level binding, each behind a question mark. -/
def check_ast (ci : σ → Import → Except Diagnostic σ) (cb : σ → Binding → Except Diagnostic σ)
    (s : σ) (ast : Ast) : Except Diagnostic σ :=
  match check_list ci s ast.imports with
  | Except.error e => Except.error e
  | Except.ok s2 => check_list cb s2 ast.bindings

/-- The top-level loop of the check function over all Asts. -/
def check_workspace (ci : σ → Import → Except Diagnostic σ)
    (cb : σ → Binding → Except Diagnostic σ) (s : σ) (asts : List Ast) : Except Diagnostic σ :=
  check_list (fun s2 ast => check_ast ci cb s2 ast) s asts

/-! ## Call checking: default filling and arity (src/src/check/call.rs) -/

/-- Modelled as an opaque payload: the constant value carried by a
parameter default (hir::Const values are not inspected by the fill
step, only cloned). -/
abbrev ConstValue := Nat

/-- Modelled as an opaque payload: a type of the newer front-end
(types::Type / TypeId); the fill step only copies the parameter type into
the synthesized constant node. -/
abbrev CheckType := Nat

/-- A function-type parameter of the newer front-end: name, type and
optional default value (FunctionTypeParam; types.rs is not under
src/, the fields are those call.rs consults). -/
structure FunctionTypeParam where
  name : String
  ty : CheckType
  default_value : Option ConstValue
  deriving DecidableEq, Repr

/-- The varargs descriptor of a function type (an optional element
type). -/
structure FunctionTypeVarargs where
  ty : Option CheckType
  deriving DecidableEq, Repr

/-- A function type of the newer front-end, reduced to the fields the
arity step consults. -/
structure FunctionType where
  params : List FunctionTypeParam
  return_type : CheckType
  varargs : Option FunctionTypeVarargs
  deriving DecidableEq, Repr

/-- A checked argument node: Const is hir::Node::Const (the shape the
default fill appends); Other stands for every other hir node kind, which
the fill step treats opaquely. -/
inductive HirNode where
  | Const (value : ConstValue) (ty : CheckType) (span : Span)
  | Other (id : Nat) (ty : CheckType) (span : Span)
  deriving DecidableEq, Repr

/-- The payload of the arg_mismatch diagnostic from call.rs: the expected
count is the full parameter count, the actual count is the argument count
at the moment of the error. -/
structure ArgMismatchDiag where
  expected : Nat
  actual : Nat
  span : Span
  deriving DecidableEq, Repr

/-- The default-filling loop of ast::Call::check (call.rs, the
args.len() < params.len() block): walk the remaining parameters in order;
a parameter with a default value appends a constant node, a parameter
without one fails with arg_mismatch at the current argument count. -/
def fill_default_params (ft_params_len : Nat) (span : Span) :
    List HirNode → List FunctionTypeParam → Except ArgMismatchDiag (List HirNode)
  | args, [] => Except.ok args
  | args, p :: rest =>
    match p.default_value with
    | some v => fill_default_params ft_params_len span (args ++ [HirNode.Const v p.ty span]) rest
    | none => Except.error ⟨ft_params_len, args.length, span⟩

/-- The arity portion of ast::Call::check after argument walking: fill
missing arguments from defaults when args.len() < params.len(), then
apply the final variadic/exact arity validation of call.rs. -/
def check_call_arity (ft : FunctionType) (args : List HirNode) (span : Span) :
    Except ArgMismatchDiag (List HirNode) :=
  match
    (if args.length < ft.params.length then
      fill_default_params ft.params.length span args (ft.params.drop args.length)
    else Except.ok args) with
  | Except.error e => Except.error e
  | Except.ok args2 =>
    match ft.varargs with
    | some _ =>
      if args2.length < ft.params.length then Except.error ⟨ft.params.length, args2.length, span⟩
      else Except.ok args2
    | none =>
      if args2.length ≠ ft.params.length then Except.error ⟨ft.params.length, args2.length, span⟩
      else Except.ok args2

/-! ## The interpreter's globals prologue
(src/compiler/chili_interp/src/interp.rs) -/

/-- Modelled from the spec: the bytecode instruction set (the vm module of
chili_interp is not under src/); only PushConst and Call matter to the
prologue. -/
inductive Instruction where
  | PushConst (slot : Nat)
  | PushGlobal (slot : Nat)
  | StoreGlobal (slot : Nat)
  | PushLocal (offset : Int)
  | StoreLocal (offset : Int)
  | Call (arg_count : Nat)
  | Return
  | Jump (target : Nat)
  | JumpIfFalse (target : Nat)
  | Halt
  deriving DecidableEq, Repr

/-- CompiledCode: an instruction sequence plus a locals counter. -/
structure CompiledCode where
  instructions : List Instruction
  locals : Nat
  deriving DecidableEq, Repr

/-- The sentinel BindingInfoId::unknown() used for synthesized functions;
its numeric value is irrelevant to the prologue. -/
def unknown_binding_info_id : Nat := 0

/-- A VM function value (Function of the Value union). -/
structure VmFunction where
  id : Nat
  name : String
  arg_types : List TyKind
  return_type : TyKind
  code : CompiledCode

/-- Modelled from the spec: the Value union of the VM, reduced to the
variants the prologue construction touches (unit occupies constants slot
zero; Function wraps each global initializer). -/
inductive Value where
  | unit
  | int (i : Int)
  | bool (b : Bool)
  | Function (fn : VmFunction)

/-- The wrapping of one evaluated global into a zero-argument function
value, as built by insert_init_instructions (global_index is the global's
slot recorded at lowering time). -/
def global_init_function (global_index : Nat) (global_code : CompiledCode) : Value :=
  Value.Function
    ⟨unknown_binding_info_id, "global_init_" ++ toString global_index, [], TyKind.Unit,
      global_code⟩

/-- The loop of insert_init_instructions: for each evaluated global in
insertion order, push its wrapped init function into the constants pool
and emit PushConst of the new slot immediately followed by Call(0). -/
def init_loop : List (Nat × CompiledCode) → List Value → List Instruction →
    List Value × List Instruction
  | [], cs, init => (cs, init)
  | (gi, gc) :: rest, cs, init =>
    init_loop rest (cs ++ [global_init_function gi gc])
      (init ++ [Instruction.PushConst cs.length, Instruction.Call 0])

/-- insert_init_instructions from interp.rs: build the init prologue from
the evaluated globals and prepend it to the top-level code, returning the
grown constants pool and the patched code. -/
def insert_init_instructions (evaluated_globals : List (Nat × CompiledCode))
    (constants : List Value) (code : CompiledCode) : List Value × CompiledCode :=
  match init_loop evaluated_globals constants [] with
  | (cs2, init) => (cs2, ⟨init ++ code.instructions, code.locals⟩)

/-- The closed form of the prologue instruction stream: for the nth
registered global, PushConst of slot base + n then Call(0). -/
def prologue_instrs : Nat → List (Nat × CompiledCode) → List Instruction
  | _, [] => []
  | base, (_, _) :: rest =>
    Instruction.PushConst base :: Instruction.Call 0 :: prologue_instrs (base + 1) rest

/-! ## Claim C9: pattern projection to the single form -/

/-- C9: projecting a pattern to the single form returns the contained
symbol pattern for the Single variant, and fails with the ExpectedSingle
error (a panic in the source, with the message expected a name) for the
StructDestructor and TupleDestructor variants. -/
theorem pattern_projection_single :
    (∀ sp : SymbolPattern, (Pattern.Single sp).into_single = Except.ok sp) ∧
    (∀ d : DestructorPattern,
        (Pattern.StructDestructor d).into_single = Except.error PatternError.ExpectedSingle) ∧
    (∀ d : DestructorPattern,
        (Pattern.TupleDestructor d).into_single = Except.error PatternError.ExpectedSingle) :=
  ⟨fun _ => rfl, fun _ => rfl, fun _ => rfl⟩

/-! ## Claim C5: the check driver stops at the first error -/

/-- C5 (counterexample): the claim as stated is false. The check loop of
chili_check/src/lib.rs runs every check_import and
check_top_level_binding behind the question-mark operator, so the first
failing binding aborts the whole check invocation: with two top-level
bindings that would each produce a distinct diagnostic, only the first
diagnostic is returned, and the second binding is never checked. -/
theorem check_does_not_recover :
    check_workspace (fun (s : Nat) (_ : Import) => Except.ok s)
        (fun (_ : Nat) (b : Binding) =>
          Except.error ⟨toString b.pattern.span.start_index, [], []⟩)
        0
        [⟨0, [],
          [⟨Pattern.Single ⟨0, "a", none, ⟨0, 0, 0, 0⟩, false, false⟩, Visibility.Public⟩,
           ⟨Pattern.Single ⟨1, "b", none, ⟨1, 0, 0, 1⟩, false, false⟩, Visibility.Public⟩]⟩] =
      Except.error ⟨"0", [], []⟩ ∧
    check_workspace (fun (s : Nat) (_ : Import) => Except.ok s)
        (fun (_ : Nat) (b : Binding) =>
          Except.error ⟨toString b.pattern.span.start_index, [], []⟩)
        0
        [⟨0, [],
          [⟨Pattern.Single ⟨1, "b", none, ⟨1, 0, 0, 1⟩, false, false⟩, Visibility.Public⟩]⟩] =
      Except.error ⟨"1", [], []⟩ ∧
    (⟨"0", [], []⟩ : Diagnostic) ≠ (⟨"1", [], []⟩ : Diagnostic) :=
  ⟨rfl, rfl, by decide⟩

/-- C5 (amended): when checking a workspace, the check stage stops at the
first failing import or binding: the error is propagated immediately, the
remaining items of the list are never checked, and a single invocation of
check reports exactly that one diagnostic. -/
theorem check_stops_at_first_error :
    (∀ (σ α : Type) (f : σ → α → Except Diagnostic σ) (s : σ) (x : α) (xs : List α)
        (e : Diagnostic), f s x = Except.error e → check_list f s (x :: xs) = Except.error e) ∧
    (∀ (σ : Type) (ci : σ → Import → Except Diagnostic σ)
        (cb : σ → Binding → Except Diagnostic σ) (s : σ) (ast : Ast) (asts : List Ast)
        (e : Diagnostic), check_ast ci cb s ast = Except.error e →
        check_workspace ci cb s (ast :: asts) = Except.error e) := by
  constructor
  · intro σ α f s x xs e h
    simp [check_list, h]
  · intro σ ci cb s ast asts e h
    simp [check_workspace, check_list, h]

/-- C5 (witness): the stop-at-first-error property applied to a concrete
always-failing item checker. -/
theorem check_stops_at_first_error_witness :
    check_list (fun (_ : Nat) (_ : Nat) => Except.error (⟨"boom", [], []⟩ : Diagnostic)) 0 [1, 2] =
      Except.error ⟨"boom", [], []⟩ :=
  check_stops_at_first_error.1 Nat Nat _ 0 1 [2] ⟨"boom", [], []⟩ rfl

/-! ## Claim C7: default-argument filling and arity errors -/

theorem fill_defaults_all_some (L : Nat) (span : Span) :
    ∀ (rest : List FunctionTypeParam) (args : List HirNode),
      (∀ p ∈ rest, p.default_value.isSome = true) →
      fill_default_params L span args rest =
        Except.ok (args ++ rest.map (fun p => HirNode.Const (p.default_value.getD 0) p.ty span)) := by
  intro rest
  induction rest with
  | nil => intro args _; simp [fill_default_params]
  | cons p rest ih =>
    intro args h
    have hp := h p (List.mem_cons_self p rest)
    obtain ⟨v, hv⟩ := Option.isSome_iff_exists.mp hp
    simp only [fill_default_params, hv]
    rw [ih (args ++ [HirNode.Const v p.ty span]) (fun q hq => h q (List.mem_cons_of_mem p hq))]
    simp [hv]

theorem fill_cons_some (L : Nat) (span : Span) (args : List HirNode)
    (q : FunctionTypeParam) (rest : List FunctionTypeParam) (v : ConstValue)
    (hv : q.default_value = some v) :
    fill_default_params L span args (q :: rest) =
      fill_default_params L span (args ++ [HirNode.Const v q.ty span]) rest := by
  simp [fill_default_params, hv]

theorem fill_defaults_first_none (L : Nat) (span : Span) (p0 : FunctionTypeParam)
    (post : List FunctionTypeParam) (h0 : p0.default_value = none) :
    ∀ (pre : List FunctionTypeParam) (args : List HirNode),
      (∀ q ∈ pre, q.default_value.isSome = true) →
      fill_default_params L span args (pre ++ p0 :: post) =
        Except.error ⟨L, args.length + pre.length, span⟩ := by
  intro pre
  induction pre with
  | nil => intro args _; simp [fill_default_params, h0]
  | cons q pre ih =>
    intro args h
    have hq := h q (List.mem_cons_self q pre)
    obtain ⟨v, hv⟩ := Option.isSome_iff_exists.mp hq
    rw [List.cons_append, fill_cons_some L span args q (pre ++ p0 :: post) v hv]
    rw [ih (args ++ [HirNode.Const v q.ty span]) (fun r hr => h r (List.mem_cons_of_mem q hr))]
    have hL : (args ++ [HirNode.Const v q.ty span]).length + pre.length =
        args.length + (q :: pre).length := by
      simp
      omega
    rw [hL]

/-- C7: when the argument list is shorter than the parameter list, each
remaining parameter's default value is appended as a constant argument in
parameter order; if some remaining parameter has no default value, the
call check fails with an arity-mismatch error (expected the full
parameter count, actual the argument count at that moment) and no
argument list is produced. -/
theorem default_argument_filling :
    (∀ (ft : FunctionType) (args : List HirNode) (span : Span),
        args.length < ft.params.length →
        (∀ p ∈ ft.params.drop args.length, p.default_value.isSome = true) →
        check_call_arity ft args span =
          Except.ok (args ++ (ft.params.drop args.length).map
            (fun p => HirNode.Const (p.default_value.getD 0) p.ty span))) ∧
    (∀ (ft : FunctionType) (args : List HirNode) (span : Span) (pre : List FunctionTypeParam)
        (p0 : FunctionTypeParam) (post : List FunctionTypeParam),
        args.length < ft.params.length →
        ft.params.drop args.length = pre ++ p0 :: post →
        (∀ q ∈ pre, q.default_value.isSome = true) → p0.default_value = none →
        check_call_arity ft args span =
          Except.error ⟨ft.params.length, args.length + pre.length, span⟩) := by
  constructor
  · intro ft args span hlt hsome
    obtain ⟨params, rt, va⟩ := ft
    dsimp only at hlt hsome ⊢
    have hfill := fill_defaults_all_some params.length span (params.drop args.length) args hsome
    have hlen : (args ++ (params.drop args.length).map
        (fun p => HirNode.Const (p.default_value.getD 0) p.ty span)).length = params.length := by
      simp [List.length_drop]
      omega
    unfold check_call_arity
    rw [if_pos hlt, hfill]
    cases va with
    | none => simp [hlen]; omega
    | some v => simp [hlen]; omega
  · intro ft args span pre p0 post hlt hdrop hpre h0
    have hfill := fill_defaults_first_none ft.params.length span p0 post h0 pre args hpre
    unfold check_call_arity
    rw [if_pos hlt, hdrop, hfill]

/-- C7 (witness): default filling evaluated on a concrete call with one
supplied argument and two defaulted parameters. -/
theorem default_argument_filling_witness :
    check_call_arity
        ⟨[⟨"a", 1, none⟩, ⟨"b", 2, some 7⟩, ⟨"c", 3, some 9⟩], 0, none⟩
        [HirNode.Other 0 1 ⟨0, 0, 0, 0⟩] ⟨0, 0, 0, 0⟩ =
      Except.ok [HirNode.Other 0 1 ⟨0, 0, 0, 0⟩, HirNode.Const 7 2 ⟨0, 0, 0, 0⟩,
        HirNode.Const 9 3 ⟨0, 0, 0, 0⟩] :=
  default_argument_filling.1
    ⟨[⟨"a", 1, none⟩, ⟨"b", 2, some 7⟩, ⟨"c", 3, some 9⟩], 0, none⟩
    [HirNode.Other 0 1 ⟨0, 0, 0, 0⟩] ⟨0, 0, 0, 0⟩ (by decide) (by decide)

/-! ## Claim C8: globals prologue ordering -/

theorem init_loop_closed_form :
    ∀ (gs : List (Nat × CompiledCode)) (cs : List Value) (init : List Instruction),
      init_loop gs cs init =
        (cs ++ gs.map (fun g => global_init_function g.1 g.2),
         init ++ prologue_instrs cs.length gs) := by
  intro gs
  induction gs with
  | nil => intro cs init; simp [init_loop, prologue_instrs]
  | cons g rest ih =>
    intro cs init
    obtain ⟨gi, gc⟩ := g
    rw [show init_loop ((gi, gc) :: rest) cs init =
      init_loop rest (cs ++ [global_init_function gi gc])
        (init ++ [Instruction.PushConst cs.length, Instruction.Call 0]) from rfl]
    rw [ih]
    simp [prologue_instrs]

theorem prologue_instrs_length (gs : List (Nat × CompiledCode)) :
    ∀ base : Nat, (prologue_instrs base gs).length = 2 * gs.length := by
  induction gs with
  | nil => intro base; simp [prologue_instrs]
  | cons g rest ih =>
    intro base
    obtain ⟨gi, gc⟩ := g
    simp [prologue_instrs, ih (base + 1)]
    omega

theorem prologue_instrs_get (gs : List (Nat × CompiledCode)) :
    ∀ (base n : Nat), n < gs.length →
      (prologue_instrs base gs).get? (2 * n) = some (Instruction.PushConst (base + n)) ∧
      (prologue_instrs base gs).get? (2 * n + 1) = some (Instruction.Call 0) := by
  induction gs with
  | nil => intro base n h; simp at h
  | cons g rest ih =>
    intro base n h
    obtain ⟨gi, gc⟩ := g
    cases n with
    | zero => simp [prologue_instrs]
    | succ n =>
      have h2 : n < rest.length := by simp at h; omega
      have := ih (base + 1) n h2
      have e1 : 2 * (n + 1) = (2 * n + 1) + 1 := by omega
      have e2 : base + 1 + n = base + (n + 1) := by omega
      rw [e1]
      simp only [prologue_instrs, List.get?_cons_succ]
      rw [← e2]
      exact this

/-- C8: insert_init_instructions prepends, in registration order, a
PushConst of each global's freshly allocated init-function constant slot
immediately followed by Call(0); all prologue instructions precede every
instruction of the original top-level code, and the constant slot pushed
before the nth Call(0) holds the Function value wrapping the nth
registered global's init code. -/
theorem globals_prologue_ordering :
    (∀ (gs : List (Nat × CompiledCode)) (cs : List Value) (code : CompiledCode),
        insert_init_instructions gs cs code =
          (cs ++ gs.map (fun g => global_init_function g.1 g.2),
           ⟨prologue_instrs cs.length gs ++ code.instructions, code.locals⟩)) ∧
    (∀ (gs : List (Nat × CompiledCode)) (base : Nat),
        (prologue_instrs base gs).length = 2 * gs.length) ∧
    (∀ (gs : List (Nat × CompiledCode)) (cs : List Value) (code : CompiledCode)
        (n : Nat) (g : Nat × CompiledCode), gs.get? n = some g →
        (prologue_instrs cs.length gs).get? (2 * n) =
            some (Instruction.PushConst (cs.length + n)) ∧
        (prologue_instrs cs.length gs).get? (2 * n + 1) = some (Instruction.Call 0) ∧
        (insert_init_instructions gs cs code).1.get? (cs.length + n) =
            some (global_init_function g.1 g.2)) := by
  refine ⟨?closed, prologue_instrs_length, ?nth⟩
  · intro gs cs code
    unfold insert_init_instructions
    rw [init_loop_closed_form gs cs []]
    simp
  · intro gs cs code n g hget
    have hn : n < gs.length := List.get?_eq_some.mp hget |>.1
    refine ⟨(prologue_instrs_get gs cs.length n hn).1, (prologue_instrs_get gs cs.length n hn).2, ?const⟩
    unfold insert_init_instructions
    rw [init_loop_closed_form gs cs []]
    simp only
    rw [List.get?_append_right (by omega)]
    have e3 : cs.length + n - cs.length = n := by omega
    rw [e3, List.get?_map, hget]
    rfl

/-- C8 (witness): the prologue evaluated on two concrete registered
globals. -/
theorem globals_prologue_ordering_witness :
    (prologue_instrs 1 [(5, ⟨[Instruction.Halt], 0⟩), (7, ⟨[], 1⟩)]).get? 2 =
        some (Instruction.PushConst 2) ∧
      (prologue_instrs 1 [(5, ⟨[Instruction.Halt], 0⟩), (7, ⟨[], 1⟩)]).get? 3 =
        some (Instruction.Call 0) ∧
      (insert_init_instructions [(5, ⟨[Instruction.Halt], 0⟩), (7, ⟨[], 1⟩)] [Value.unit]
          ⟨[Instruction.Halt], 2⟩).1.get? 2 = some (global_init_function 7 ⟨[], 1⟩) :=
  globals_prologue_ordering.2.2 [(5, ⟨[Instruction.Halt], 0⟩), (7, ⟨[], 1⟩)] [Value.unit]
    ⟨[Instruction.Halt], 2⟩ 1 (7, ⟨[], 1⟩) rfl

/-! ## Claim C3: export collection and non-Single patterns -/

/-- C3 (counterexample): the claim as stated is false. A public binding
whose pattern is a TupleDestructor is not ignored: collect_module_exports
projects every public binding through Pattern::into_single, which panics
on a destructor pattern (modelled as none), so the collection does not
terminate normally. -/
theorem collect_exports_panics_on_destructor :
    (Pattern.TupleDestructor ⟨[], true, ⟨0, 0, 0, 0⟩⟩).is_single = false ∧
      (Visibility.Public).is_public = true ∧
      collect_module_exports
          [⟨0, [], [⟨Pattern.TupleDestructor ⟨[], true, ⟨0, 0, 0, 0⟩⟩, Visibility.Public⟩]⟩]
          [] = none :=
  ⟨rfl, rfl, rfl⟩

theorem collect_binding_exports_isSome :
    ∀ (bs : List Binding) (e : ExportEntry),
      (collect_binding_exports e bs).isSome = true ↔
        ∀ b ∈ bs, b.visibility.is_public = true → b.pattern.is_single = true := by
  intro bs
  induction bs with
  | nil => intro e; simp [collect_binding_exports]
  | cons b bs ih =>
    intro e
    cases hv : b.visibility.is_public with
    | false =>
      simp only [collect_binding_exports, hv, Bool.false_eq_true, if_false]
      rw [ih e]
      constructor
      · intro h b2 hm hp
        rcases List.mem_cons.mp hm with h1 | h2
        · subst h1; rw [hv] at hp; cases hp
        · exact h b2 h2 hp
      · intro h b2 hm hp
        exact h b2 (List.mem_cons_of_mem b hm) hp
    | true =>
      cases hp : b.pattern with
      | Single sp =>
        simp only [collect_binding_exports, hv, if_true, hp, Pattern.into_single]
        rw [ih (insert_symbol e sp.symbol sp.binding_info_idx)]
        constructor
        · intro h b2 hm hpub
          rcases List.mem_cons.mp hm with h1 | h2
          · subst h1; rw [hp]; rfl
          · exact h b2 h2 hpub
        · intro h b2 hm hpub
          exact h b2 (List.mem_cons_of_mem b hm) hpub
      | StructDestructor d =>
        simp only [collect_binding_exports, hv, if_true, hp, Pattern.into_single]
        simp only [Option.isSome_none, Bool.false_eq_true, false_iff]
        intro hall
        have hb := hall b (List.mem_cons_self b bs) hv
        rw [hp] at hb
        simp [Pattern.is_single] at hb
      | TupleDestructor d =>
        simp only [collect_binding_exports, hv, if_true, hp, Pattern.into_single]
        simp only [Option.isSome_none, Bool.false_eq_true, false_iff]
        intro hall
        have hb := hall b (List.mem_cons_self b bs) hv
        rw [hp] at hb
        simp [Pattern.is_single] at hb

/-- Modelled from the spec (refinement reference for the amended claim):
export collection as the spec words it — insert every public import and
every public Single-pattern binding into the module's entry, ignoring
destructor-pattern bindings instead of failing on them. -/
def collect_module_exports_spec : List Ast → ModuleExports → ModuleExports
  | [], ex => ex
  | ast :: asts, ex =>
    let entry := (exports_get ex ast.module_id).getD []
    let e1 := collect_import_exports entry ast.imports
    let e2 := ast.bindings.foldl
      (fun e b =>
        if b.visibility.is_public then
          match b.pattern with
          | Pattern.Single pat => insert_symbol e pat.symbol pat.binding_info_idx
          | _ => e
        else e) e1
    collect_module_exports_spec asts (exports_put ex ast.module_id e2)

theorem collect_binding_exports_eq_fold :
    ∀ (bs : List Binding) (e : ExportEntry),
      (∀ b ∈ bs, b.visibility.is_public = true → b.pattern.is_single = true) →
      collect_binding_exports e bs =
        some (bs.foldl
          (fun e2 b =>
            if b.visibility.is_public then
              match b.pattern with
              | Pattern.Single pat => insert_symbol e2 pat.symbol pat.binding_info_idx
              | _ => e2
            else e2) e) := by
  intro bs
  induction bs with
  | nil => intro e _; simp [collect_binding_exports]
  | cons b bs ih =>
    intro e h
    cases hv : b.visibility.is_public with
    | false =>
      simp only [collect_binding_exports, hv, Bool.false_eq_true, if_false, List.foldl_cons]
      exact ih e (fun b2 hm hp => h b2 (List.mem_cons_of_mem b hm) hp)
    | true =>
      have hs := h b (List.mem_cons_self b bs) hv
      cases hp : b.pattern with
      | Single sp =>
        simp only [collect_binding_exports, hv, if_true, hp, Pattern.into_single,
          List.foldl_cons]
        exact ih (insert_symbol e sp.symbol sp.binding_info_idx)
          (fun b2 hm hp2 => h b2 (List.mem_cons_of_mem b hm) hp2)
      | StructDestructor d => rw [hp] at hs; cases hs
      | TupleDestructor d => rw [hp] at hs; cases hs

/-- C3 (amended): collect_module_exports terminates normally exactly when
every public binding of every Ast has a Single pattern — a public
destructor-pattern binding makes it fail (the source panics in
Pattern::into_single) rather than being ignored — and on success it
inserts exactly the public imports and the public Single-pattern bindings
into the per-module export entries. -/
theorem collect_exports_requires_single :
    (∀ (asts : List Ast) (ex : ModuleExports),
        (collect_module_exports asts ex).isSome = true ↔
          ∀ ast ∈ asts, ∀ b ∈ ast.bindings,
            b.visibility.is_public = true → b.pattern.is_single = true) ∧
    (∀ (asts : List Ast) (ex : ModuleExports),
        (∀ ast ∈ asts, ∀ b ∈ ast.bindings,
            b.visibility.is_public = true → b.pattern.is_single = true) →
        collect_module_exports asts ex = some (collect_module_exports_spec asts ex)) := by
  constructor
  · intro asts
    induction asts with
    | nil => intro ex; simp [collect_module_exports]
    | cons ast asts ih =>
      intro ex
      simp only [collect_module_exports]
      cases hcb : collect_binding_exports
          (collect_import_exports ((exports_get ex ast.module_id).getD []) ast.imports)
          ast.bindings with
      | none =>
        have hns := collect_binding_exports_isSome ast.bindings
          (collect_import_exports ((exports_get ex ast.module_id).getD []) ast.imports)
        rw [hcb] at hns
        simp only [Option.isSome_none, Bool.false_eq_true, false_iff] at hns ⊢
        intro hall
        exact hns (hall ast (List.mem_cons_self ast asts))
      | some e2 =>
        have hsome := collect_binding_exports_isSome ast.bindings
          (collect_import_exports ((exports_get ex ast.module_id).getD []) ast.imports)
        rw [hcb] at hsome
        simp only [Option.isSome_some, true_iff] at hsome
        rw [ih (exports_put ex ast.module_id e2)]
        constructor
        · intro h ast2 hm b hb hp
          rcases List.mem_cons.mp hm with h1 | h2
          · subst h1; exact hsome b hb hp
          · exact h ast2 h2 b hb hp
        · intro h ast2 hm b hb hp
          exact h ast2 (List.mem_cons_of_mem ast hm) b hb hp
  · intro asts
    induction asts with
    | nil => intro ex _; simp [collect_module_exports, collect_module_exports_spec]
    | cons ast asts ih =>
      intro ex h
      have hall : ∀ b ∈ ast.bindings, b.visibility.is_public = true → b.pattern.is_single = true :=
        h ast (List.mem_cons_self ast asts)
      simp only [collect_module_exports, collect_module_exports_spec]
      rw [collect_binding_exports_eq_fold ast.bindings
        (collect_import_exports ((exports_get ex ast.module_id).getD []) ast.imports) hall]
      exact ih (exports_put ex ast.module_id _)
        (fun ast2 hm => h ast2 (List.mem_cons_of_mem ast hm))

/-- C3 (witness): collection evaluated on an Ast mixing a public import, a
public Single binding, a private destructor binding (ignored because it is
private) and a private Single binding. -/
theorem collect_exports_requires_single_witness :
    collect_module_exports
        [⟨3,
          [⟨3, ⟨"m"⟩, "imported", none, [], Visibility.Public, ⟨0, 0, 0, 0⟩, 11⟩],
          [⟨Pattern.Single ⟨21, "exported", none, ⟨0, 0, 0, 0⟩, false, false⟩, Visibility.Public⟩,
           ⟨Pattern.StructDestructor ⟨[], true, ⟨0, 0, 0, 0⟩⟩, Visibility.Private⟩,
           ⟨Pattern.Single ⟨22, "hidden", none, ⟨0, 0, 0, 0⟩, false, false⟩,
             Visibility.Private⟩]⟩]
        [] =
      some (collect_module_exports_spec
        [⟨3,
          [⟨3, ⟨"m"⟩, "imported", none, [], Visibility.Public, ⟨0, 0, 0, 0⟩, 11⟩],
          [⟨Pattern.Single ⟨21, "exported", none, ⟨0, 0, 0, 0⟩, false, false⟩, Visibility.Public⟩,
           ⟨Pattern.StructDestructor ⟨[], true, ⟨0, 0, 0, 0⟩⟩, Visibility.Private⟩,
           ⟨Pattern.Single ⟨22, "hidden", none, ⟨0, 0, 0, 0⟩, false, false⟩,
             Visibility.Private⟩]⟩]
        []) :=
  collect_exports_requires_single.2
    [⟨3,
      [⟨3, ⟨"m"⟩, "imported", none, [], Visibility.Public, ⟨0, 0, 0, 0⟩, 11⟩],
      [⟨Pattern.Single ⟨21, "exported", none, ⟨0, 0, 0, 0⟩, false, false⟩, Visibility.Public⟩,
       ⟨Pattern.StructDestructor ⟨[], true, ⟨0, 0, 0, 0⟩⟩, Visibility.Private⟩,
       ⟨Pattern.Single ⟨22, "hidden", none, ⟨0, 0, 0, 0⟩, false, false⟩,
         Visibility.Private⟩]⟩]
    [] (by decide)

/-! ## Claims C6 and C10: glob expansion -/

/-- Concatenation of per-element expansions (the accumulated to_add
list). -/
def concat_map (g : α → List β) : List α → List β
  | [] => []
  | x :: xs => g x ++ concat_map g xs

theorem mem_concat_map (g : α → List β) (y : β) :
    ∀ l : List α, y ∈ concat_map g l ↔ ∃ x ∈ l, y ∈ g x := by
  intro l
  induction l with
  | nil => simp [concat_map]
  | cons x xs ih => simp [concat_map, ih]

/-- The indices, counted from n, of the glob imports of a list (the
to_remove list built by the first loop). -/
def glob_idxs : Nat → List Import → List Nat
  | _, [] => []
  | n, i :: is2 => if i.is_glob then n :: glob_idxs (n + 1) is2 else glob_idxs (n + 1) is2

theorem collect_glob_closed (ex : ModuleExports) :
    ∀ (l : List Import) (n : Nat),
      (∀ imp ∈ l, imp.is_glob = true → (exports_get ex imp.module_id).isSome = true) →
      collect_glob_expansions (l.enumFrom n) ex =
        some (glob_idxs n l,
          concat_map (fun i => ((exports_get ex i.module_id).getD []).map (expand_entry i))
            (l.filter (fun i => i.is_glob))) := by
  intro l
  induction l with
  | nil => intro n _; simp [collect_glob_expansions, glob_idxs, concat_map]
  | cons a t ih =>
    intro n h
    rw [List.enumFrom_cons]
    cases hg : a.is_glob with
    | true =>
      have hex := h a (List.mem_cons_self a t) hg
      obtain ⟨entry, hentry⟩ := Option.isSome_iff_exists.mp hex
      simp only [collect_glob_expansions, hg, if_true, expand_glob_import, hentry]
      rw [ih (n + 1) (fun imp hm hgl => h imp (List.mem_cons_of_mem a hm) hgl)]
      simp [glob_idxs, hg, concat_map, hentry]
    | false =>
      simp only [collect_glob_expansions, hg, Bool.false_eq_true, if_false]
      rw [ih (n + 1) (fun imp hm hgl => h imp (List.mem_cons_of_mem a hm) hgl)]
      simp [glob_idxs, hg]

theorem collect_glob_isSome (ex : ModuleExports) :
    ∀ (l : List Import) (n : Nat),
      (collect_glob_expansions (l.enumFrom n) ex).isSome = true ↔
        ∀ imp ∈ l, imp.is_glob = true → (exports_get ex imp.module_id).isSome = true := by
  intro l
  induction l with
  | nil => intro n; simp [collect_glob_expansions]
  | cons a t ih =>
    intro n
    rw [List.enumFrom_cons]
    cases hg : a.is_glob with
    | true =>
      simp only [collect_glob_expansions, hg, if_true]
      cases hx : exports_get ex a.module_id with
      | none =>
        simp only [expand_glob_import, hx]
        constructor
        · intro hfalse; cases hfalse
        · intro hall
          have := hall a (List.mem_cons_self a t) hg
          rw [hx] at this
          cases this
      | some entry =>
        simp only [expand_glob_import, hx]
        cases hc : collect_glob_expansions (t.enumFrom (n + 1)) ex with
        | none =>
          have hiff := ih (n + 1)
          rw [hc] at hiff
          simp only [Option.isSome_none, Bool.false_eq_true, false_iff] at hiff
          simp only [Option.isSome_none, Bool.false_eq_true, false_iff]
          intro hall
          exact hiff (fun imp hm hgl => hall imp (List.mem_cons_of_mem a hm) hgl)
        | some p =>
          obtain ⟨rem, add⟩ := p
          have hiff := ih (n + 1)
          rw [hc] at hiff
          simp only [Option.isSome_some, true_iff] at hiff
          simp only [Option.isSome_some, true_iff]
          intro imp hm hgl
          rcases List.mem_cons.mp hm with h1 | h2
          · subst h1; rw [hx]; rfl
          · exact hiff imp h2 hgl
    | false =>
      simp only [collect_glob_expansions, hg, Bool.false_eq_true, if_false]
      rw [ih (n + 1)]
      constructor
      · intro hall imp hm hgl
        rcases List.mem_cons.mp hm with h1 | h2
        · subst h1; rw [hg] at hgl; cases hgl
        · exact hall imp h2 hgl
      · intro hall imp hm hgl
        exact hall imp (List.mem_cons_of_mem a hm) hgl

theorem ril_cons_glob_idxs :
    ∀ (t2 : List Import) (a : Import) (t : List Import) (k m : Nat), k + 1 ≤ m →
      remove_indices_loop (a :: t) (glob_idxs m t2) k =
        a :: remove_indices_loop t (glob_idxs m t2) (k + 1) := by
  intro t2
  induction t2 with
  | nil => intro a t k m _; simp [glob_idxs, remove_indices_loop]
  | cons b t2 ih =>
    intro a t k m hkm
    cases hg : b.is_glob with
    | true =>
      simp only [glob_idxs, hg, if_true, remove_indices_loop]
      have e1 : m - k = (m - (k + 1)) + 1 := by omega
      rw [e1, List.eraseIdx_cons_succ]
      have e2 : m - (k + 1) + 1 - 1 = m - (k + 1) := by omega
      rw [ih a (t.eraseIdx (m - (k + 1))) (k + 1) (m + 1) (by omega)]
    | false =>
      simp only [glob_idxs, hg, Bool.false_eq_true, if_false]
      exact ih a t k (m + 1) (by omega)

theorem remove_glob_idxs :
    ∀ (l : List Import) (k : Nat),
      remove_indices_loop l (glob_idxs k l) k = l.filter (fun i => !i.is_glob) := by
  intro l
  induction l with
  | nil => intro k; simp [glob_idxs, remove_indices_loop]
  | cons a t ih =>
    intro k
    cases hg : a.is_glob with
    | true =>
      simp only [glob_idxs, hg, if_true, remove_indices_loop, Nat.sub_self,
        List.eraseIdx_cons_zero]
      rw [ih (k + 1)]
      simp [List.filter, hg]
    | false =>
      simp only [glob_idxs, hg, Bool.false_eq_true, if_false]
      rw [ril_cons_glob_idxs t a t k (k + 1) (by omega), ih (k + 1)]
      simp [List.filter, hg]

theorem expand_isSome_eq (imports : List Import) (ex : ModuleExports) :
    (expand_and_replace_glob_imports imports ex).isSome =
      (collect_glob_expansions imports.enum ex).isSome := by
  unfold expand_and_replace_glob_imports
  cases collect_glob_expansions imports.enum ex with
  | none => rfl
  | some p => cases p; rfl

/-- C10: expand_and_replace_glob_imports terminates without panicking
exactly when every glob import's target module id has an exports entry; a
glob import whose target module is missing from the ModuleExports map
makes the unwrap panic (modelled as none). -/
theorem glob_expansion_requires_exports (imports : List Import) (ex : ModuleExports) :
    (expand_and_replace_glob_imports imports ex).isSome = true ↔
      ∀ imp ∈ imports, imp.is_glob = true → (exports_get ex imp.module_id).isSome = true := by
  rw [expand_isSome_eq imports ex,
    show imports.enum = imports.enumFrom 0 from rfl]
  exact collect_glob_isSome ex imports 0

/-- C6: when every glob import's target module has an exports entry,
expand_and_replace_glob_imports removes every glob import in index order,
keeps the non-glob imports, and appends exactly one replacement import per
symbol exported by each glob's target module; each replacement keeps the
original's visibility, module id and span, is aliased by the exported
symbol, and is itself not a glob, so no glob import remains. -/
theorem glob_expansion_replaces_globs (imports : List Import) (ex : ModuleExports)
    (h : ∀ imp ∈ imports, imp.is_glob = true → (exports_get ex imp.module_id).isSome = true) :
    expand_and_replace_glob_imports imports ex =
      some (imports.filter (fun i => !i.is_glob) ++
        concat_map (fun i => ((exports_get ex i.module_id).getD []).map (expand_entry i))
          (imports.filter (fun i => i.is_glob))) ∧
    (∀ j ∈ imports.filter (fun i => !i.is_glob) ++
        concat_map (fun i => ((exports_get ex i.module_id).getD []).map (expand_entry i))
          (imports.filter (fun i => i.is_glob)), j.is_glob = false) ∧
    (∀ (imp : Import) (p : String × Nat),
        (expand_entry imp p).visibility = imp.visibility ∧
        (expand_entry imp p).module_id = imp.module_id ∧
        (expand_entry imp p).span = imp.span ∧
        (expand_entry imp p).alias_sym = p.1 ∧
        (expand_entry imp p).is_glob = false) ∧
    (∀ (imp : Import) (entry : ExportEntry),
        (entry.map (expand_entry imp)).length = entry.length) := by
  have hglob : ∀ (imp : Import) (p : String × Nat), (expand_entry imp p).is_glob = false := by
    intro imp p
    simp only [Import.is_glob, expand_entry]
    rw [List.getLast?_concat]
  refine ⟨?closed, ?noglob, fun imp p => ⟨rfl, rfl, rfl, rfl, hglob imp p⟩, fun imp entry => by simp⟩
  · unfold expand_and_replace_glob_imports
    rw [show imports.enum = imports.enumFrom 0 from rfl, collect_glob_closed ex imports 0 h]
    dsimp only
    rw [remove_glob_idxs imports 0]
  · intro j hj
    rcases List.mem_append.mp hj with h1 | h2
    · have := List.mem_filter.mp h1
      simpa using this.2
    · rcases (mem_concat_map _ j _).mp h2 with ⟨i, _, hji⟩
      rcases List.mem_map.mp hji with ⟨p, _, hp⟩
      rw [← hp]
      exact hglob i p

/-- C6 (witness): glob expansion evaluated on a concrete import list with
one glob import whose target module exports two symbols and one plain
import. -/
theorem glob_expansion_replaces_globs_witness :
    expand_and_replace_glob_imports
        [⟨2, ⟨"bar"⟩, "x", none, [⟨ImportPathNode.Symbol "x", ⟨0, 0, 0, 0⟩⟩],
          Visibility.Public, ⟨0, 0, 0, 0⟩, 100⟩,
         ⟨1, ⟨"foo"⟩, "star", none,
          [⟨ImportPathNode.Symbol "foo", ⟨0, 0, 0, 0⟩⟩, ⟨ImportPathNode.Glob, ⟨0, 0, 0, 0⟩⟩],
          Visibility.Private, ⟨0, 0, 0, 0⟩, 99⟩]
        [(1, [("A", 10), ("B", 20)])] =
      some
        (([⟨2, ⟨"bar"⟩, "x", none, [⟨ImportPathNode.Symbol "x", ⟨0, 0, 0, 0⟩⟩],
            Visibility.Public, ⟨0, 0, 0, 0⟩, 100⟩,
           ⟨1, ⟨"foo"⟩, "star", none,
            [⟨ImportPathNode.Symbol "foo", ⟨0, 0, 0, 0⟩⟩, ⟨ImportPathNode.Glob, ⟨0, 0, 0, 0⟩⟩],
            Visibility.Private, ⟨0, 0, 0, 0⟩, 99⟩].filter (fun i => !i.is_glob)) ++
          concat_map
            (fun i =>
              ((exports_get [(1, [("A", 10), ("B", 20)])] i.module_id).getD []).map
                (expand_entry i))
            ([⟨2, ⟨"bar"⟩, "x", none, [⟨ImportPathNode.Symbol "x", ⟨0, 0, 0, 0⟩⟩],
               Visibility.Public, ⟨0, 0, 0, 0⟩, 100⟩,
              ⟨1, ⟨"foo"⟩, "star", none,
               [⟨ImportPathNode.Symbol "foo", ⟨0, 0, 0, 0⟩⟩,
                ⟨ImportPathNode.Glob, ⟨0, 0, 0, 0⟩⟩],
               Visibility.Private, ⟨0, 0, 0, 0⟩, 99⟩].filter (fun i => i.is_glob))) :=
  (glob_expansion_replaces_globs
    [⟨2, ⟨"bar"⟩, "x", none, [⟨ImportPathNode.Symbol "x", ⟨0, 0, 0, 0⟩⟩],
      Visibility.Public, ⟨0, 0, 0, 0⟩, 100⟩,
     ⟨1, ⟨"foo"⟩, "star", none,
      [⟨ImportPathNode.Symbol "foo", ⟨0, 0, 0, 0⟩⟩, ⟨ImportPathNode.Glob, ⟨0, 0, 0, 0⟩⟩],
      Visibility.Private, ⟨0, 0, 0, 0⟩, 99⟩]
    [(1, [("A", 10), ("B", 20)])] (by decide)).1

/-! ## Claim C1: occurs soundness -/

theorem ctx_bind_bound_mono (ctx : TyCtx) (v : Ty) (k : TyKind) (w : Ty)
    (hw : is_bound ctx w = true) : is_bound (ctx_bind ctx v k) w = true := by
  induction ctx generalizing v w with
  | nil => simp [is_bound, ctx_get] at hw
  | cons b bs ih =>
    cases v with
    | zero =>
      cases w with
      | zero => simp [is_bound, ctx_get, ctx_bind]
      | succ w => simpa [is_bound, ctx_get, ctx_bind] using hw
    | succ v =>
      cases w with
      | zero => simpa [is_bound, ctx_get, ctx_bind] using hw
      | succ w =>
        have := ih v w (by simpa [is_bound, ctx_get] using hw)
        simpa [is_bound, ctx_get, ctx_bind] using this

theorem uThen_some (r : Option UnifyOut) (k : TyCtx → Option UnifyOut) (o : UnifyOut)
    (h : uThen r k = some o) :
    (∃ c, r = some (Except.ok (), c) ∧ k c = some o) ∨
      (∃ e c, r = some (Except.error e, c) ∧ o = (Except.error e, c)) := by
  cases r with
  | none => cases h
  | some p =>
    obtain ⟨res, c⟩ := p
    cases res with
    | ok u => exact Or.inl ⟨c, by cases u; rfl, by simpa [uThen] using h⟩
    | error e =>
      refine Or.inr ⟨e, c, rfl, ?eq⟩
      simp only [uThen] at h
      cases h
      rfl

theorem fold_unify_bound_mono (u : TyCtx → TyKind → TyKind → Option UnifyOut)
    (hu : ∀ c a b o2, u c a b = some o2 → ∀ w2, is_bound c w2 = true → is_bound o2.2 w2 = true) :
    ∀ (l : List (TyKind × TyKind)) (ctx : TyCtx) (o : UnifyOut),
      fold_unify u ctx l = some o → ∀ w2, is_bound ctx w2 = true → is_bound o.2 w2 = true := by
  intro l
  induction l with
  | nil =>
    intro ctx o h w2 hw
    simp only [fold_unify] at h
    cases h
    exact hw
  | cons p ps ih =>
    intro ctx o h w2 hw
    simp only [fold_unify] at h
    rcases uThen_some _ _ _ h with ⟨c, hr, hk⟩ | ⟨e, c, hr, ho⟩
    · exact ih c o hk w2 (hu ctx p.1 p.2 _ hr w2 hw)
    · rw [ho]
      exact hu ctx p.1 p.2 _ hr w2 hw

set_option maxHeartbeats 3200000 in
/-- Slots that are Bound before any unify call remain Bound after it, on
success or failure: the unifier only ever writes Bound values. -/
theorem unify_bound_mono :
    ∀ (f : Nat) (ctx : TyCtx) (t1 t2 : TyKind) (o : UnifyOut),
      unify f ctx t1 t2 = some o → ∀ w, is_bound ctx w = true → is_bound o.2 w = true := by
  intro f
  induction f with
  | zero =>
    intro ctx t1 t2 o h
    rw [show unify 0 ctx t1 t2 = none from rfl] at h
    cases h
  | succ f ih =>
    intro ctx t1 t2 o h w hw
    have hfmono := fold_unify_bound_mono (fun c a b => unify f c a b)
      (fun c a b o2 h2 w2 hw2 => ih c a b o2 h2 w2 hw2)
    cases t1 <;> cases t2 <;>
      (simp only [unify] at h) <;>
      (try (repeat' split at h)) <;>
      first
      | (cases h <;> first | exact hw | exact ctx_bind_bound_mono _ _ _ _ hw)
      | (exact ih _ _ _ _ h w hw)
      | (exact hfmono _ _ _ h w hw)
      | (rcases uThen_some _ _ _ h with ⟨c, hr, hk⟩ | ⟨e, c, hr, ho⟩
         · exact ih _ _ _ _ hk w (hfmono _ _ _ hr w hw)
         · rw [ho]; exact hfmono _ _ _ hr w hw)

theorem mapOpt_mem (g : α → Option β) :
    ∀ (l : List α) (l2 : List β), mapOpt g l = some l2 → ∀ y ∈ l2, ∃ x ∈ l, g x = some y := by
  intro l
  induction l with
  | nil =>
    intro l2 h y hy
    simp only [mapOpt] at h
    cases h
    cases hy
  | cons x xs ih =>
    intro l2 h y hy
    simp only [mapOpt] at h
    cases hx : g x with
    | none => rw [hx] at h; cases h
    | some y0 =>
      rw [hx] at h
      cases hrest : mapOpt g xs with
      | none => rw [hrest] at h; cases h
      | some ys =>
        rw [hrest] at h
        simp only [Option.map_some'] at h
        cases h
        rcases List.mem_cons.mp hy with h1 | h2
        · subst h1; exact ⟨x, List.mem_cons_self x xs, hx⟩
        · obtain ⟨x2, hx2, hg2⟩ := ih ys hrest y h2
          exact ⟨x2, List.mem_cons_of_mem x hx2, hg2⟩

theorem mapOpt_det (g1 g2 : α → Option β)
    (hdet : ∀ x : α, ∀ y1 y2 : β, g1 x = some y1 → g2 x = some y2 → y1 = y2) :
    ∀ (l : List α) (l1 l2 : List β), mapOpt g1 l = some l1 → mapOpt g2 l = some l2 → l1 = l2 := by
  intro l
  induction l with
  | nil =>
    intro l1 l2 h1 h2
    simp only [mapOpt] at h1 h2
    cases h1
    cases h2
    rfl
  | cons x xs ih =>
    intro l1 l2 h1 h2
    simp only [mapOpt] at h1 h2
    cases hx1 : g1 x with
    | none => rw [hx1] at h1; cases h1
    | some y1 =>
      cases hx2 : g2 x with
      | none => rw [hx2] at h2; cases h2
      | some y2 =>
        rw [hx1] at h1
        rw [hx2] at h2
        cases hr1 : mapOpt g1 xs with
        | none => rw [hr1] at h1; cases h1
        | some ys1 =>
          cases hr2 : mapOpt g2 xs with
          | none => rw [hr2] at h2; cases h2
          | some ys2 =>
            rw [hr1] at h1
            rw [hr2] at h2
            simp only [Option.map_some'] at h1 h2
            cases h1
            cases h2
            rw [hdet x y1 y2 hx1 hx2, ih ys1 ys2 hr1 hr2]

theorem contains_var_list_false (v : Ty) :
    ∀ ns : List TyKind, contains_var_list v ns = false ↔ ∀ y ∈ ns, contains_var v y = false := by
  intro ns
  induction ns with
  | nil => simp [contains_var_list]
  | cons y ys ih => simp [contains_var_list, ih]

theorem contains_var_pairs_false (v : Ty) :
    ∀ ps : List (String × TyKind),
      contains_var_pairs v ps = false ↔ ∀ q ∈ ps, contains_var v q.2 = false := by
  intro ps
  induction ps with
  | nil => simp [contains_var_pairs]
  | cons q qs ih =>
    obtain ⟨n, t⟩ := q
    simp [contains_var_pairs, ih]

/-- Every Var node surviving normalization refers to an Unbound slot; in
particular a variable whose slot is Bound cannot appear in any value
normalize produces. -/
theorem normalize_no_bound_var :
    ∀ (g : Nat) (ctx : TyCtx) (T N : TyKind), normalize_ty g ctx T = some N →
      ∀ v : Ty, is_bound ctx v = true → contains_var v N = false := by
  intro g
  induction g with
  | zero =>
    intro ctx T N h
    rw [show normalize_ty 0 ctx T = none from rfl] at h
    cases h
  | succ f ih =>
    intro ctx T N h v hv
    cases T with
    | Unit => cases h; simp [contains_var]
    | Bool => cases h; simp [contains_var]
    | Never => cases h; simp [contains_var]
    | Int w => cases h; simp [contains_var]
    | UInt w => cases h; simp [contains_var]
    | Float w => cases h; simp [contains_var]
    | Str => cases h; simp [contains_var]
    | AnyInt w => cases h; simp [contains_var]
    | AnyFloat w => cases h; simp [contains_var]
    | Var w =>
      simp only [normalize_ty] at h
      cases hg : ctx_get ctx w with
      | Bound u =>
        rw [hg] at h
        exact ih ctx u N h v hv
      | Unbound =>
        rw [hg] at h
        cases h
        by_cases hvw : v = w
        · subst hvw
          rw [is_bound, hg] at hv
          cases hv
        · simp [contains_var, hvw]
    | Pointer inner m =>
      rw [show normalize_ty (f+1) ctx (TyKind.Pointer inner m) = (normalize_ty f ctx inner).map (fun n => TyKind.Pointer n m) from rfl] at h
      cases hn : normalize_ty f ctx inner with
      | none => rw [hn] at h; cases h
      | some n2 =>
        rw [hn] at h
        simp only [Option.map_some'] at h
        cases h
        simpa [contains_var] using ih ctx inner n2 hn v hv
    | MultiPointer inner m =>
      rw [show normalize_ty (f+1) ctx (TyKind.MultiPointer inner m) = (normalize_ty f ctx inner).map (fun n => TyKind.MultiPointer n m) from rfl] at h
      cases hn : normalize_ty f ctx inner with
      | none => rw [hn] at h; cases h
      | some n2 =>
        rw [hn] at h
        simp only [Option.map_some'] at h
        cases h
        simpa [contains_var] using ih ctx inner n2 hn v hv
    | Slice inner m =>
      rw [show normalize_ty (f+1) ctx (TyKind.Slice inner m) = (normalize_ty f ctx inner).map (fun n => TyKind.Slice n m) from rfl] at h
      cases hn : normalize_ty f ctx inner with
      | none => rw [hn] at h; cases h
      | some n2 =>
        rw [hn] at h
        simp only [Option.map_some'] at h
        cases h
        simpa [contains_var] using ih ctx inner n2 hn v hv
    | Array inner sz =>
      rw [show normalize_ty (f+1) ctx (TyKind.Array inner sz) = (normalize_ty f ctx inner).map (fun n => TyKind.Array n sz) from rfl] at h
      cases hn : normalize_ty f ctx inner with
      | none => rw [hn] at h; cases h
      | some n2 =>
        rw [hn] at h
        simp only [Option.map_some'] at h
        cases h
        simpa [contains_var] using ih ctx inner n2 hn v hv
    | Typ inner =>
      rw [show normalize_ty (f+1) ctx (TyKind.Typ inner) = (normalize_ty f ctx inner).map TyKind.Typ from rfl] at h
      cases hn : normalize_ty f ctx inner with
      | none => rw [hn] at h; cases h
      | some n2 =>
        rw [hn] at h
        simp only [Option.map_some'] at h
        cases h
        simpa [contains_var] using ih ctx inner n2 hn v hv
    | Tuple ts =>
      rw [show normalize_ty (f+1) ctx (TyKind.Tuple ts) =
        (mapOpt (fun x => normalize_ty f ctx x) ts).map TyKind.Tuple from rfl] at h
      cases hm : mapOpt (fun x => normalize_ty f ctx x) ts with
      | none => rw [hm] at h; cases h
      | some ns =>
        rw [hm] at h
        simp only [Option.map_some'] at h
        cases h
        simp only [contains_var]
        rw [contains_var_list_false]
        intro y hy
        obtain ⟨x, hx, hgx⟩ := mapOpt_mem _ ts ns hm y hy
        exact ih ctx x y hgx v hv
    | Fn ps variadic ret =>
      rw [show normalize_ty (f+1) ctx (TyKind.Fn ps variadic ret) =
        (match mapOpt (fun p => (normalize_ty f ctx p.2).map (fun n => (p.1, n))) ps with
         | none => none
         | some ps2 => (normalize_ty f ctx ret).map (TyKind.Fn ps2 variadic)) from rfl] at h
      cases hm : mapOpt (fun p => (normalize_ty f ctx p.2).map (fun n => (p.1, n))) ps with
      | none => rw [hm] at h; cases h
      | some ps2 =>
        rw [hm] at h
        cases hr : normalize_ty f ctx ret with
        | none => rw [hr] at h; cases h
        | some r2 =>
          rw [hr] at h
          simp only [Option.map_some'] at h
          cases h
          simp only [contains_var, Bool.or_eq_false_iff]
          constructor
          · rw [contains_var_pairs_false]
            intro q hq
            obtain ⟨p, hp, hgp⟩ := mapOpt_mem _ ps ps2 hm q hq
            cases hn2 : normalize_ty f ctx p.2 with
            | none => rw [hn2] at hgp; cases hgp
            | some n2 =>
              rw [hn2] at hgp
              simp only [Option.map_some'] at hgp
              cases hgp
              exact ih ctx p.2 n2 hn2 v hv
          · exact ih ctx ret r2 hr v hv
    | Struct id k fields =>
      rw [show normalize_ty (f+1) ctx (TyKind.Struct id k fields) =
        (mapOpt (fun p => (normalize_ty f ctx p.2).map (fun n => (p.1, n))) fields).map
          (TyKind.Struct id k) from rfl] at h
      cases hm : mapOpt (fun p => (normalize_ty f ctx p.2).map (fun n => (p.1, n))) fields with
      | none => rw [hm] at h; cases h
      | some fs2 =>
        rw [hm] at h
        simp only [Option.map_some'] at h
        cases h
        simp only [contains_var]
        rw [contains_var_pairs_false]
        intro q hq
        obtain ⟨p, hp, hgp⟩ := mapOpt_mem _ fields fs2 hm q hq
        cases hn2 : normalize_ty f ctx p.2 with
        | none => rw [hn2] at hgp; cases hgp
        | some n2 =>
          rw [hn2] at hgp
          simp only [Option.map_some'] at hgp
          cases hgp
          exact ih ctx p.2 n2 hn2 v hv

/-- Normalization is deterministic: any two fuels that produce a result
produce the same result. -/
theorem normalize_det :
    ∀ (g1 : Nat) (ctx : TyCtx) (T N1 : TyKind), normalize_ty g1 ctx T = some N1 →
      ∀ (g2 : Nat) (N2 : TyKind), normalize_ty g2 ctx T = some N2 → N1 = N2 := by
  intro g1
  induction g1 with
  | zero =>
    intro ctx T N1 h1
    rw [show normalize_ty 0 ctx T = none from rfl] at h1
    cases h1
  | succ f ih =>
    intro ctx T N1 h1 g2 N2 h2
    cases g2 with
    | zero =>
      rw [show normalize_ty 0 ctx T = none from rfl] at h2
      cases h2
    | succ g =>
      have hpair : ∀ (x : TyKind) (y1 y2 : TyKind), normalize_ty f ctx x = some y1 →
          normalize_ty g ctx x = some y2 → y1 = y2 :=
        fun x y1 y2 hx1 hx2 => ih ctx x y1 hx1 g y2 hx2
      have hpairs : ∀ (p : String × TyKind) (q1 q2 : String × TyKind),
          (normalize_ty f ctx p.2).map (fun n => (p.1, n)) = some q1 →
          (normalize_ty g ctx p.2).map (fun n => (p.1, n)) = some q2 → q1 = q2 := by
        intro p q1 q2 hq1 hq2
        cases hx1 : normalize_ty f ctx p.2 with
        | none => rw [hx1] at hq1; cases hq1
        | some y1 =>
          cases hx2 : normalize_ty g ctx p.2 with
          | none => rw [hx2] at hq2; cases hq2
          | some y2 =>
            rw [hx1] at hq1
            rw [hx2] at hq2
            simp only [Option.map_some'] at hq1 hq2
            cases hq1
            cases hq2
            rw [hpair p.2 y1 y2 hx1 hx2]
      cases T with
      | Unit => cases h1; cases h2; rfl
      | Bool => cases h1; cases h2; rfl
      | Never => cases h1; cases h2; rfl
      | Int w => cases h1; cases h2; rfl
      | UInt w => cases h1; cases h2; rfl
      | Float w => cases h1; cases h2; rfl
      | Str => cases h1; cases h2; rfl
      | AnyInt w => cases h1; cases h2; rfl
      | AnyFloat w => cases h1; cases h2; rfl
      | Var w =>
        simp only [normalize_ty] at h1 h2
        cases hg : ctx_get ctx w with
        | Bound u =>
          rw [hg] at h1 h2
          exact ih ctx u N1 h1 g N2 h2
        | Unbound =>
          rw [hg] at h1 h2
          cases h1
          cases h2
          rfl
      | Pointer inner m =>
        rw [show normalize_ty (f+1) ctx (TyKind.Pointer inner m) =
          (normalize_ty f ctx inner).map (fun n => TyKind.Pointer n m) from rfl] at h1
        rw [show normalize_ty (g+1) ctx (TyKind.Pointer inner m) =
          (normalize_ty g ctx inner).map (fun n => TyKind.Pointer n m) from rfl] at h2
        cases hx1 : normalize_ty f ctx inner with
        | none => rw [hx1] at h1; cases h1
        | some y1 =>
          cases hx2 : normalize_ty g ctx inner with
          | none => rw [hx2] at h2; cases h2
          | some y2 =>
            rw [hx1] at h1
            rw [hx2] at h2
            simp only [Option.map_some'] at h1 h2
            cases h1
            cases h2
            rw [hpair inner y1 y2 hx1 hx2]
      | MultiPointer inner m =>
        rw [show normalize_ty (f+1) ctx (TyKind.MultiPointer inner m) =
          (normalize_ty f ctx inner).map (fun n => TyKind.MultiPointer n m) from rfl] at h1
        rw [show normalize_ty (g+1) ctx (TyKind.MultiPointer inner m) =
          (normalize_ty g ctx inner).map (fun n => TyKind.MultiPointer n m) from rfl] at h2
        cases hx1 : normalize_ty f ctx inner with
        | none => rw [hx1] at h1; cases h1
        | some y1 =>
          cases hx2 : normalize_ty g ctx inner with
          | none => rw [hx2] at h2; cases h2
          | some y2 =>
            rw [hx1] at h1
            rw [hx2] at h2
            simp only [Option.map_some'] at h1 h2
            cases h1
            cases h2
            rw [hpair inner y1 y2 hx1 hx2]
      | Slice inner m =>
        rw [show normalize_ty (f+1) ctx (TyKind.Slice inner m) =
          (normalize_ty f ctx inner).map (fun n => TyKind.Slice n m) from rfl] at h1
        rw [show normalize_ty (g+1) ctx (TyKind.Slice inner m) =
          (normalize_ty g ctx inner).map (fun n => TyKind.Slice n m) from rfl] at h2
        cases hx1 : normalize_ty f ctx inner with
        | none => rw [hx1] at h1; cases h1
        | some y1 =>
          cases hx2 : normalize_ty g ctx inner with
          | none => rw [hx2] at h2; cases h2
          | some y2 =>
            rw [hx1] at h1
            rw [hx2] at h2
            simp only [Option.map_some'] at h1 h2
            cases h1
            cases h2
            rw [hpair inner y1 y2 hx1 hx2]
      | Array inner sz =>
        rw [show normalize_ty (f+1) ctx (TyKind.Array inner sz) =
          (normalize_ty f ctx inner).map (fun n => TyKind.Array n sz) from rfl] at h1
        rw [show normalize_ty (g+1) ctx (TyKind.Array inner sz) =
          (normalize_ty g ctx inner).map (fun n => TyKind.Array n sz) from rfl] at h2
        cases hx1 : normalize_ty f ctx inner with
        | none => rw [hx1] at h1; cases h1
        | some y1 =>
          cases hx2 : normalize_ty g ctx inner with
          | none => rw [hx2] at h2; cases h2
          | some y2 =>
            rw [hx1] at h1
            rw [hx2] at h2
            simp only [Option.map_some'] at h1 h2
            cases h1
            cases h2
            rw [hpair inner y1 y2 hx1 hx2]
      | Typ inner =>
        rw [show normalize_ty (f+1) ctx (TyKind.Typ inner) =
          (normalize_ty f ctx inner).map TyKind.Typ from rfl] at h1
        rw [show normalize_ty (g+1) ctx (TyKind.Typ inner) =
          (normalize_ty g ctx inner).map TyKind.Typ from rfl] at h2
        cases hx1 : normalize_ty f ctx inner with
        | none => rw [hx1] at h1; cases h1
        | some y1 =>
          cases hx2 : normalize_ty g ctx inner with
          | none => rw [hx2] at h2; cases h2
          | some y2 =>
            rw [hx1] at h1
            rw [hx2] at h2
            simp only [Option.map_some'] at h1 h2
            cases h1
            cases h2
            rw [hpair inner y1 y2 hx1 hx2]
      | Tuple ts =>
        rw [show normalize_ty (f+1) ctx (TyKind.Tuple ts) =
          (mapOpt (fun x => normalize_ty f ctx x) ts).map TyKind.Tuple from rfl] at h1
        rw [show normalize_ty (g+1) ctx (TyKind.Tuple ts) =
          (mapOpt (fun x => normalize_ty g ctx x) ts).map TyKind.Tuple from rfl] at h2
        cases hx1 : mapOpt (fun x => normalize_ty f ctx x) ts with
        | none => rw [hx1] at h1; cases h1
        | some ns1 =>
          cases hx2 : mapOpt (fun x => normalize_ty g ctx x) ts with
          | none => rw [hx2] at h2; cases h2
          | some ns2 =>
            rw [hx1] at h1
            rw [hx2] at h2
            simp only [Option.map_some'] at h1 h2
            cases h1
            cases h2
            rw [mapOpt_det _ _ hpair ts ns1 ns2 hx1 hx2]
      | Fn ps variadic ret =>
        rw [show normalize_ty (f+1) ctx (TyKind.Fn ps variadic ret) =
          (match mapOpt (fun p => (normalize_ty f ctx p.2).map (fun n => (p.1, n))) ps with
           | none => none
           | some ps2 => (normalize_ty f ctx ret).map (TyKind.Fn ps2 variadic)) from rfl] at h1
        rw [show normalize_ty (g+1) ctx (TyKind.Fn ps variadic ret) =
          (match mapOpt (fun p => (normalize_ty g ctx p.2).map (fun n => (p.1, n))) ps with
           | none => none
           | some ps2 => (normalize_ty g ctx ret).map (TyKind.Fn ps2 variadic)) from rfl] at h2
        cases hx1 : mapOpt (fun p => (normalize_ty f ctx p.2).map (fun n => (p.1, n))) ps with
        | none => rw [hx1] at h1; cases h1
        | some ps1 =>
          cases hx2 : mapOpt (fun p => (normalize_ty g ctx p.2).map (fun n => (p.1, n))) ps with
          | none => rw [hx2] at h2; cases h2
          | some ps2 =>
            rw [hx1] at h1
            rw [hx2] at h2
            cases hr1 : normalize_ty f ctx ret with
            | none => rw [hr1] at h1; cases h1
            | some r1 =>
              cases hr2 : normalize_ty g ctx ret with
              | none => rw [hr2] at h2; cases h2
              | some r2 =>
                rw [hr1] at h1
                rw [hr2] at h2
                simp only [Option.map_some'] at h1 h2
                cases h1
                cases h2
                rw [mapOpt_det _ _ hpairs ps ps1 ps2 hx1 hx2, hpair ret r1 r2 hr1 hr2]
      | Struct id k fields =>
        rw [show normalize_ty (f+1) ctx (TyKind.Struct id k fields) =
          (mapOpt (fun p => (normalize_ty f ctx p.2).map (fun n => (p.1, n))) fields).map
            (TyKind.Struct id k) from rfl] at h1
        rw [show normalize_ty (g+1) ctx (TyKind.Struct id k fields) =
          (mapOpt (fun p => (normalize_ty g ctx p.2).map (fun n => (p.1, n))) fields).map
            (TyKind.Struct id k) from rfl] at h2
        cases hx1 : mapOpt (fun p => (normalize_ty f ctx p.2).map (fun n => (p.1, n))) fields with
        | none => rw [hx1] at h1; cases h1
        | some fs1 =>
          cases hx2 : mapOpt (fun p => (normalize_ty g ctx p.2).map (fun n => (p.1, n))) fields with
          | none => rw [hx2] at h2; cases h2
          | some fs2 =>
            rw [hx1] at h1
            rw [hx2] at h2
            simp only [Option.map_some'] at h1 h2
            cases h1
            cases h2
            rw [mapOpt_det _ _ hpairs fields fs1 fs2 hx1 hx2]


theorem is_var_eq_true_iff (v : Ty) (n : TyKind) : is_var_eq v n = true ↔ n = TyKind.Var v := by
  cases n <;> simp only [is_var_eq, beq_iff_eq, Bool.false_eq_true, false_iff, TyKind.Var.injEq] <;>
    try exact fun h => TyKind.noConfusion h
  constructor
  · intro h; rw [h]
  · intro h; rw [h]

theorem ctx_bind_is_bound (ctx : TyCtx) (v : Ty) (k : TyKind) (hv : v < ctx.length) :
    is_bound (ctx_bind ctx v k) v = true := by
  induction ctx generalizing v with
  | nil => simp at hv
  | cons b bs ih =>
    cases v with
    | zero => simp [is_bound, ctx_get, ctx_bind]
    | succ v =>
      have := ih v (by simpa using hv)
      simpa [is_bound, ctx_get, ctx_bind] using this

/-- The occurs-soundness content of unify_var_ty: a successful call either
bound v (and then Var(v) cannot appear in anything the other side
normalizes to), or left v alone because the other side already normalizes
to Var(v) itself. -/
theorem unify_var_ty_sound (f : Nat) (ctx : TyCtx) (v : Ty) (T : TyKind) (ctx2 : TyCtx)
    (hv : v < ctx.length) (h : unify_var_ty f ctx v T = some (Except.ok (), ctx2)) :
    (∀ g N, normalize_ty g ctx2 T = some N → contains_var v N = false) ∨
      (∀ g N, normalize_ty g ctx2 T = some N → is_type_wrapped_var v N = true) := by
  unfold unify_var_ty at h
  cases hg : ctx_get ctx v with
  | Bound kind =>
    rw [hg] at h
    have hb : is_bound ctx v = true := by rw [is_bound, hg]
    have hb2 := unify_bound_mono f ctx kind T (Except.ok (), ctx2) h v hb
    left
    intro g N hN
    exact normalize_no_bound_var g ctx2 T N hN v hb2
  | Unbound =>
    rw [hg] at h
    dsimp only at h
    cases hnorm : normalize_ty f ctx T with
    | none => rw [hnorm] at h; cases h
    | some n =>
      rw [hnorm] at h
      dsimp only at h
      cases hvar : is_var_eq v n with
      | true =>
        rw [hvar] at h
        simp only [if_true] at h
        cases h
        right
        intro g N hN
        have hnN := normalize_det f ctx T n hnorm g N hN
        rw [← hnN, (is_var_eq_true_iff v n).mp hvar]
        simp [is_type_wrapped_var]
      | false =>
        rw [hvar] at h
        simp only [Bool.false_eq_true, if_false] at h
        cases hocc : occurs f ctx v n with
        | none => rw [hocc] at h; cases h
        | some b =>
          cases b with
          | true => rw [hocc] at h; exact absurd h (by simp)
          | false =>
            rw [hocc] at h
            cases h
            have hb2 : is_bound (ctx_bind ctx v n) v = true := ctx_bind_is_bound ctx v n hv
            left
            intro g N hN
            exact normalize_no_bound_var g (ctx_bind ctx v n) T N hN v hb2

/-- C1 (amended): if unify(Var(v), T) succeeds for a valid slot v, then
either the call bound v — and Var(v) does not appear in any value
normalize(T) computes afterwards — or v was left unbound because T already
normalizes to Var(v) itself, possibly under Type(_) wrapper nodes. The
original claim fails in exactly those carved-out ways: trivial
self-unification keeps Var(v) in normalize(T), and occurs does not look
inside Type(_) nodes, so a successful unification can bind v to a type
containing Var(v) under a Type(_) wrapper, after which normalize does not
terminate (it exhausts any fuel). -/
theorem occurs_soundness :
    ∀ (f : Nat) (ctx : TyCtx) (v : Ty) (T : TyKind) (ctx2 : TyCtx), v < ctx.length →
      unify f ctx (TyKind.Var v) T = some (Except.ok (), ctx2) →
      (∀ g N, normalize_ty g ctx2 T = some N → contains_var v N = false) ∨
        (∀ g N, normalize_ty g ctx2 T = some N → is_type_wrapped_var v N = true) := by
  intro f
  induction f with
  | zero =>
    intro ctx v T ctx2 _ h
    rw [show unify 0 ctx (TyKind.Var v) T = none from rfl] at h
    cases h
  | succ f ih =>
    intro ctx v T ctx2 hv h
    cases T with
    | Typ inner =>
      rw [show unify (f+1) ctx (TyKind.Var v) (TyKind.Typ inner) =
        unify f ctx (TyKind.Var v) inner from rfl] at h
      rcases ih ctx v inner ctx2 hv h with hl | hr
      · left
        intro g N hN
        cases g with
        | zero =>
          rw [show normalize_ty 0 ctx2 (TyKind.Typ inner) = none from rfl] at hN
          cases hN
        | succ g2 =>
          rw [show normalize_ty (g2+1) ctx2 (TyKind.Typ inner) =
            (normalize_ty g2 ctx2 inner).map TyKind.Typ from rfl] at hN
          cases hi : normalize_ty g2 ctx2 inner with
          | none => rw [hi] at hN; cases hN
          | some Ni =>
            rw [hi] at hN
            simp only [Option.map_some'] at hN
            cases hN
            simpa [contains_var] using hl g2 Ni hi
      · right
        intro g N hN
        cases g with
        | zero =>
          rw [show normalize_ty 0 ctx2 (TyKind.Typ inner) = none from rfl] at hN
          cases hN
        | succ g2 =>
          rw [show normalize_ty (g2+1) ctx2 (TyKind.Typ inner) =
            (normalize_ty g2 ctx2 inner).map TyKind.Typ from rfl] at hN
          cases hi : normalize_ty g2 ctx2 inner with
          | none => rw [hi] at hN; cases hN
          | some Ni =>
            rw [hi] at hN
            simp only [Option.map_some'] at hN
            cases hN
            simpa [is_type_wrapped_var] using hr g2 Ni hi
    | Unit =>
      rw [show unify (f+1) ctx (TyKind.Var v) TyKind.Unit =
        unify_var_ty f ctx v TyKind.Unit from rfl] at h
      exact unify_var_ty_sound f ctx v TyKind.Unit ctx2 hv h
    | Bool =>
      rw [show unify (f+1) ctx (TyKind.Var v) TyKind.Bool =
        unify_var_ty f ctx v TyKind.Bool from rfl] at h
      exact unify_var_ty_sound f ctx v TyKind.Bool ctx2 hv h
    | Never =>
      rw [show unify (f+1) ctx (TyKind.Var v) TyKind.Never =
        unify_var_ty f ctx v TyKind.Never from rfl] at h
      exact unify_var_ty_sound f ctx v TyKind.Never ctx2 hv h
    | Int w =>
      rw [show unify (f+1) ctx (TyKind.Var v) (TyKind.Int w) =
        unify_var_ty f ctx v (TyKind.Int w) from rfl] at h
      exact unify_var_ty_sound f ctx v (TyKind.Int w) ctx2 hv h
    | UInt w =>
      rw [show unify (f+1) ctx (TyKind.Var v) (TyKind.UInt w) =
        unify_var_ty f ctx v (TyKind.UInt w) from rfl] at h
      exact unify_var_ty_sound f ctx v (TyKind.UInt w) ctx2 hv h
    | Float w =>
      rw [show unify (f+1) ctx (TyKind.Var v) (TyKind.Float w) =
        unify_var_ty f ctx v (TyKind.Float w) from rfl] at h
      exact unify_var_ty_sound f ctx v (TyKind.Float w) ctx2 hv h
    | Str =>
      rw [show unify (f+1) ctx (TyKind.Var v) TyKind.Str =
        unify_var_ty f ctx v TyKind.Str from rfl] at h
      exact unify_var_ty_sound f ctx v TyKind.Str ctx2 hv h
    | AnyInt w =>
      rw [show unify (f+1) ctx (TyKind.Var v) (TyKind.AnyInt w) =
        unify_var_ty f ctx v (TyKind.AnyInt w) from rfl] at h
      exact unify_var_ty_sound f ctx v (TyKind.AnyInt w) ctx2 hv h
    | AnyFloat w =>
      rw [show unify (f+1) ctx (TyKind.Var v) (TyKind.AnyFloat w) =
        unify_var_ty f ctx v (TyKind.AnyFloat w) from rfl] at h
      exact unify_var_ty_sound f ctx v (TyKind.AnyFloat w) ctx2 hv h
    | Pointer inner m =>
      rw [show unify (f+1) ctx (TyKind.Var v) (TyKind.Pointer inner m) =
        unify_var_ty f ctx v (TyKind.Pointer inner m) from rfl] at h
      exact unify_var_ty_sound f ctx v (TyKind.Pointer inner m) ctx2 hv h
    | MultiPointer inner m =>
      rw [show unify (f+1) ctx (TyKind.Var v) (TyKind.MultiPointer inner m) =
        unify_var_ty f ctx v (TyKind.MultiPointer inner m) from rfl] at h
      exact unify_var_ty_sound f ctx v (TyKind.MultiPointer inner m) ctx2 hv h
    | Slice inner m =>
      rw [show unify (f+1) ctx (TyKind.Var v) (TyKind.Slice inner m) =
        unify_var_ty f ctx v (TyKind.Slice inner m) from rfl] at h
      exact unify_var_ty_sound f ctx v (TyKind.Slice inner m) ctx2 hv h
    | Array inner sz =>
      rw [show unify (f+1) ctx (TyKind.Var v) (TyKind.Array inner sz) =
        unify_var_ty f ctx v (TyKind.Array inner sz) from rfl] at h
      exact unify_var_ty_sound f ctx v (TyKind.Array inner sz) ctx2 hv h
    | Tuple ts =>
      rw [show unify (f+1) ctx (TyKind.Var v) (TyKind.Tuple ts) =
        unify_var_ty f ctx v (TyKind.Tuple ts) from rfl] at h
      exact unify_var_ty_sound f ctx v (TyKind.Tuple ts) ctx2 hv h
    | Fn ps variadic ret =>
      rw [show unify (f+1) ctx (TyKind.Var v) (TyKind.Fn ps variadic ret) =
        unify_var_ty f ctx v (TyKind.Fn ps variadic ret) from rfl] at h
      exact unify_var_ty_sound f ctx v (TyKind.Fn ps variadic ret) ctx2 hv h
    | Struct id k fields =>
      rw [show unify (f+1) ctx (TyKind.Var v) (TyKind.Struct id k fields) =
        unify_var_ty f ctx v (TyKind.Struct id k fields) from rfl] at h
      exact unify_var_ty_sound f ctx v (TyKind.Struct id k fields) ctx2 hv h
    | Var w =>
      rw [show unify (f+1) ctx (TyKind.Var v) (TyKind.Var w) =
        unify_var_ty f ctx v (TyKind.Var w) from rfl] at h
      exact unify_var_ty_sound f ctx v (TyKind.Var w) ctx2 hv h

/-- C1 (counterexample): the claim as stated is false in two ways. First,
unify(Var(0), Var(0)) on an unbound slot succeeds without binding
anything, and Var(0) does appear in normalize(Var(0)). Second, occurs does
not recurse into Type(_) wrapper nodes (the catch-all arm of occurs
returns false for them), so unify(Var(0), Pointer(Type(Var(0)), false))
succeeds and binds slot 0 to a type that contains Var(0) through a
Type(_) node — a cycle of Bound slots through a Type(_) wrapper, exactly
what the claim rules out — after which normalize(T) exhausts any fuel. -/
theorem occurs_soundness_counterexample :
    (unify 5 [TyBinding.Unbound] (TyKind.Var 0) (TyKind.Var 0) =
        some (Except.ok (), [TyBinding.Unbound]) ∧
      normalize_ty 5 [TyBinding.Unbound] (TyKind.Var 0) = some (TyKind.Var 0) ∧
      contains_var 0 (TyKind.Var 0) = true) ∧
    (unify 9 [TyBinding.Unbound] (TyKind.Var 0)
          (TyKind.Pointer (TyKind.Typ (TyKind.Var 0)) false) =
        some (Except.ok (),
          [TyBinding.Bound (TyKind.Pointer (TyKind.Typ (TyKind.Var 0)) false)]) ∧
      occurs 9 [TyBinding.Unbound] 0 (TyKind.Pointer (TyKind.Typ (TyKind.Var 0)) false) =
        some false ∧
      contains_var 0 (TyKind.Pointer (TyKind.Typ (TyKind.Var 0)) false) = true ∧
      normalize_ty 50 [TyBinding.Bound (TyKind.Pointer (TyKind.Typ (TyKind.Var 0)) false)]
          (TyKind.Pointer (TyKind.Typ (TyKind.Var 0)) false) = none) :=
  ⟨⟨rfl, rfl, by simp [contains_var]⟩,
   ⟨rfl, rfl, by simp [contains_var], rfl⟩⟩

/-- C1 (witness): the amended occurs soundness applied to the successful
unification of Var(0) with Unit, which binds slot 0. -/
theorem occurs_soundness_witness :
    (0 : Nat) < ([TyBinding.Unbound] : TyCtx).length ∧
      ((∀ g N, normalize_ty g [TyBinding.Bound TyKind.Unit] TyKind.Unit = some N →
          contains_var 0 N = false) ∨
        (∀ g N, normalize_ty g [TyBinding.Bound TyKind.Unit] TyKind.Unit = some N →
          is_type_wrapped_var 0 N = true)) :=
  ⟨by decide,
   occurs_soundness 3 [TyBinding.Unbound] 0 TyKind.Unit [TyBinding.Bound TyKind.Unit]
     (by decide) rfl⟩
